import Mathlib

/-!
Verification of the pylustrator GUI glue layer (QLinkableWidgets.py, QtGui.py,
QtShortCuts.py) against its natural-language specification.  The Python code is
shallowly embedded: widget and artist state is passed explicitly, Python
exceptions are modelled with `Option`/`Except`, and external library calls
(Qt, matplotlib) are reduced to the data they read and write.
-/

set_option maxHeartbeats 1000000

namespace Pylustrator

namespace PyStr

theorem length_le_of_isPrefixOf :
    ∀ (p l : List Char), p.isPrefixOf l → p.length ≤ l.length := by
  intro p
  induction p with
  | nil => simp
  | cons a as ih =>
    intro l hp
    cases l with
    | nil => simp [List.isPrefixOf] at hp
    | cons b bs =>
      simp only [List.isPrefixOf, Bool.and_eq_true] at hp
      simpa using ih bs hp.2

/-- Python `str.replace` for a nonempty pattern: scan the string left to right
and replace each non-overlapping occurrence of `pat` by `repl`. -/
def pyReplace (pat repl : List Char) : List Char → List Char
  | [] => []
  | c :: rest =>
    if h : pat ≠ [] ∧ pat.isPrefixOf (c :: rest) then
      repl ++ pyReplace pat repl ((c :: rest).drop pat.length)
    else
      c :: pyReplace pat repl rest
termination_by l => l.length
decreasing_by
  · have hlen : pat.length ≤ (c :: rest).length :=
      length_le_of_isPrefixOf pat (c :: rest) h.2
    have hpos : 0 < pat.length := by
      cases pat with
      | nil => exact absurd rfl h.1
      | cons a as => simp
    simp only [List.length_drop, List.length_cons] at *
    omega
  · simp [Nat.lt_succ_self]

theorem pyReplace_nil (pat repl : List Char) : pyReplace pat repl [] = [] := by
  rw [pyReplace]

theorem pyReplace_cons_pos (pat repl : List Char) (c : Char) (rest : List Char)
    (h1 : pat ≠ []) (h2 : pat.isPrefixOf (c :: rest)) :
    pyReplace pat repl (c :: rest) =
      repl ++ pyReplace pat repl ((c :: rest).drop pat.length) := by
  rw [pyReplace]
  simp [h1, h2]

theorem pyReplace_cons_neg (pat repl : List Char) (c : Char) (rest : List Char)
    (h : ¬ (pat ≠ [] ∧ pat.isPrefixOf (c :: rest))) :
    pyReplace pat repl (c :: rest) = c :: pyReplace pat repl rest := by
  rw [pyReplace]
  rw [dif_neg h]

end PyStr

/-! ### TextWidget (QLinkableWidgets.py lines 370-448)

The widget keeps the escaped text in its line-edit `input1`; `setText` escapes
newlines to the two-character sequence backslash-n, `text` maps the sequence
back.  Only the fields that the two methods read and write are modelled. -/

namespace TextWidgetM

open PyStr

structure TextWidget where
  input1 : String
  last_text : String

/-- `TextWidget.setText` (lines 414-425): replace each newline by the
two-character sequence backslash-n, remember the escaped text and store it in
the input field. -/
def setText (w : TextWidget) (s : String) : TextWidget :=
  let t := String.mk (pyReplace ['\n'] ['\\', 'n'] s.data)
  { w with input1 := t, last_text := t }

/-- `TextWidget.text` (lines 427-430): read the input field and replace each
backslash-n sequence by a newline. -/
def text (w : TextWidget) : String :=
  String.mk (pyReplace ['\\', 'n'] ['\n'] w.input1.data)

theorem isPrefixOf_single (a c : Char) (l : List Char) :
    [a].isPrefixOf (c :: l) = (a == c) := by
  simp [List.isPrefixOf]

theorem isPrefixOf_pair (a b c d : Char) (l : List Char) :
    [a, b].isPrefixOf (c :: d :: l) = (a == c && b == d) := by
  simp [List.isPrefixOf]

theorem unescape_escape (s : List Char) (h : '\\' ∉ s) :
    pyReplace ['\\', 'n'] ['\n'] (pyReplace ['\n'] ['\\', 'n'] s) = s := by
  induction s with
  | nil => simp [pyReplace_nil]
  | cons c rest ih =>
    have hrest : '\\' ∉ rest := fun hc => h (List.mem_cons_of_mem _ hc)
    have hc : c ≠ '\\' := fun hc => h (hc ▸ List.mem_cons_self _ _)
    by_cases hnl : c = '\n'
    · subst hnl
      rw [pyReplace_cons_pos ['\n'] ['\\', 'n'] _ rest (by simp)
          (by simp [isPrefixOf_single])]
      simp only [List.length_cons, List.length_nil, List.drop_succ_cons,
        List.drop_zero, List.cons_append, List.nil_append]
      rw [pyReplace_cons_pos ['\\', 'n'] ['\n'] '\\'
          ('n' :: pyReplace ['\n'] ['\\', 'n'] rest) (by simp)
          (by simp [List.isPrefixOf])]
      simp only [List.length_cons, List.length_nil, List.drop_succ_cons,
        List.drop_zero, List.cons_append, List.nil_append]
      rw [ih hrest]
    · rw [pyReplace_cons_neg ['\n'] ['\\', 'n'] c rest
          (by simp [isPrefixOf_single]; exact fun hcc => hnl hcc.symm)]
      cases hesc : pyReplace ['\n'] ['\\', 'n'] rest with
      | nil =>
        rw [pyReplace_cons_neg ['\\', 'n'] ['\n'] c [] (by simp [List.isPrefixOf])]
        rw [pyReplace_nil]
        have := ih hrest
        rw [hesc, pyReplace_nil] at this
        rw [this]
      | cons d ds =>
        rw [pyReplace_cons_neg ['\\', 'n'] ['\n'] c (d :: ds)
          (by simp [isPrefixOf_pair]; intro hcc; exact absurd hcc.symm hc)]
        have := ih hrest
        rw [hesc] at this
        rw [this]

end TextWidgetM

/-! ### FreeNumberInput (QLinkableWidgets.py lines 207-252) -/

namespace FreeNumberInputM

open PyStr

/-- Value of a list of decimal digit characters. -/
def digitsToNat (ds : List Char) : Nat :=
  ds.foldl (fun n c => n * 10 + (c.toNat - 48)) 0

/-- Split off a leading run of decimal digits. -/
def splitDigits (s : List Char) : List Char × List Char :=
  (s.takeWhile Char.isDigit, s.dropWhile Char.isDigit)

/-- Optional leading sign; returns whether the value is negated and the rest. -/
def parseSign : List Char → Bool × List Char
  | '+' :: r => (false, r)
  | '-' :: r => (true, r)
  | s => (false, s)

/-- Integer or fractional mantissa: digits, optionally with one decimal point,
with at least one digit overall. -/
def parseMantissa (s : List Char) : Option (ℚ × List Char) :=
  let p := splitDigits s
  match p.2 with
  | '.' :: r2 =>
    let q := splitDigits r2
    if p.1.isEmpty ∧ q.1.isEmpty then none
    else some ((digitsToNat p.1 : ℚ) + (digitsToNat q.1 : ℚ) / (10 ^ q.1.length : ℚ), q.2)
  | _ => if p.1.isEmpty then none else some ((digitsToNat p.1 : ℚ), p.2)

/-- Model of Python's builtin `float()` applied to a string, over the finite
decimal literals (optional surrounding spaces, optional sign, digits with an
optional decimal point, optional exponent).  Inputs it cannot parse raise
`ValueError` in Python, modelled as `none`; non-finite literals (inf, nan) and
underscore separators are outside the model. -/
def pyFloatChars (s : List Char) : Option ℚ :=
  let s1 := s.dropWhile (fun c => c = ' ')
  let s2 := (s1.reverse.dropWhile (fun c => c = ' ')).reverse
  let sg := parseSign s2
  match parseMantissa sg.2 with
  | none => none
  | some (m, r) =>
    let v : ℚ := if sg.1 then -m else m
    match r with
    | [] => some v
    | 'e' :: r2 =>
      let esg := parseSign r2
      let q := splitDigits esg.2
      if q.1.isEmpty ∨ ¬ q.2.isEmpty then none
      else some (v * (if esg.1 then 1 / (10 ^ digitsToNat q.1 : ℚ) else (10 ^ digitsToNat q.1 : ℚ)))
    | 'E' :: r2 =>
      let esg := parseSign r2
      let q := splitDigits esg.2
      if q.1.isEmpty ∨ ¬ q.2.isEmpty then none
      else some (v * (if esg.1 then 1 / (10 ^ digitsToNat q.1 : ℚ) else (10 ^ digitsToNat q.1 : ℚ)))
    | _ => none

def pyFloat (s : String) : Option ℚ := pyFloatChars s.data

/-- The text of the field with every comma replaced by a dot
(`self.text().replace(",", ".")`, line 241). -/
def commaToDot (s : String) : String :=
  String.mk (pyReplace [','] ['.'] s.data)

/-- `FreeNumberInput.value` (lines 235-243): try `float(text)`; on
`ValueError` try again with commas replaced by dots; if that also fails return
`None` instead of raising. -/
def value (text : String) : Option ℚ :=
  match pyFloat text with
  | some v => some v
  | none =>
    match pyFloat (commaToDot text) with
    | some v => some v
    | none => none

end FreeNumberInputM

/-! ### QDragableColor.dropEvent (QtShortCuts.py lines 116-120)

Widget colors are a map from widget id to the color string held by that
widget; `dropEvent` runs on the drop target `self` with the dragged widget
`source`. -/

namespace QDragableColorM

/-- `dropEvent`: read the source color, set the source to the target's color,
then set the target to the saved source color. -/
def dropEvent (w : Nat → String) (self source : Nat) : Nat → String :=
  let color := w source
  let w1 : Nat → String := fun j => if j = source then w self else w j
  fun j => if j = self then color else w1 j

end QDragableColorM

/-! ### ColorChooserWidget.saveColors / loadColors (QtGui.py lines 279-305)

The file system is a partial map from path to contents; the file-dialog result
is the `path` argument (empty string models a cancelled dialog, for which the
Python code returns without touching anything). -/

namespace ColorChooserM

structure SaveState where
  files : String → Option String
  last_save_folder : Option String

/-- `saveColors`: write the color text widget's plain text verbatim to the
chosen file (and remember the folder); a cancelled dialog changes nothing. -/
def saveColors (widget_text : String) (path : String) (st : SaveState) : SaveState :=
  if path = "" then st
  else
    { files := fun p => if p = path then some widget_text else st.files p,
      last_save_folder := some path }

/-- `loadColors`: read the chosen file and set the widget text to its
contents; returns the new state and the new widget text, `none` when opening
the file raises. -/
def loadColors (path : String) (st : SaveState) (widget_text : String) :
    Option (SaveState × String) :=
  if path = "" then some (st, widget_text)
  else
    match st.files path with
    | none => none
    | some content => some ({ st with last_save_folder := some path }, content)

end ColorChooserM

/-! ### Linkable (QLinkableWidgets.py lines 37-204)

The non-direct branch of `Linkable.link` builds three closures over the linked
`element`, a fixed `property_name` and the main figure's selection `targets`:
`setLinkedProperty`, `getLinkedPropertyAll` and `serializeLinkedProperty`;
`updateLink` drives them.  Artists are identified by `Nat` ids (Python `==`
on matplotlib artists is identity comparison), the linked property's value on
each artist is explicit state `Nat → V`, and Python exceptions are
`Except.error`. -/

namespace Link

/-- The attributes of an artist that the closures inspect: whether it is a
`Text` or an `Axes`, the ids of its x/y axis label text objects (meaningful
only for axes), and whether `get_<property>` / `set_<property>` exist. -/
structure LArtist where
  isText : Bool
  isAxes : Bool
  xlabel : Nat
  ylabel : Nat
  hasGetter : Bool
  hasSetter : Bool

abbrev Env := Nat → LArtist

/-- Lines 75-82 (and identically 106-113): find whether the linked element is
the x- or y-axis label of one of the selection targets (`some true` = "x",
`some false` = "y"); `get_xaxis` on a non-axes target raises
`AttributeError`. -/
def findLabel (A : Env) (e : Nat) : List Nat → Except Unit (Option Bool)
  | [] => Except.ok none
  | t :: ts =>
    if (A t).isAxes = false then Except.error ()
    else if (A t).xlabel = e then Except.ok (some true)
    else if (A t).ylabel = e then Except.ok (some false)
    else findLabel A e ts

/-- Lines 73-74: the label search runs only when the element is a `Text`, the
selection is nonempty and its first target is an `Axes`. -/
def labelObject (A : Env) (e : Nat) (targets : List Nat) : Except Unit (Option Bool) :=
  match targets with
  | [] => Except.ok none
  | t0 :: _ =>
    if (A e).isText ∧ (A t0).isAxes then findLabel A e targets else Except.ok none

/-- Lines 91-92 (and 119-120): when the label special treatment is active,
replace a target by its x- or y-axis label. -/
def substTarget (A : Env) (lo : Option Bool) (t : Nat) : Except Unit Nat :=
  match lo with
  | none => Except.ok t
  | some true => if (A t).isAxes then Except.ok (A t).xlabel else Except.error ()
  | some false => if (A t).isAxes then Except.ok (A t).ylabel else Except.error ()

/-- Substitute every target in order, propagating the first exception. -/
def mapSubst (A : Env) (lo : Option Bool) : List Nat → Except Unit (List Nat)
  | [] => Except.ok []
  | t :: ts =>
    match substTarget A lo t with
    | Except.error u => Except.error u
    | Except.ok x =>
      match mapSubst A lo ts with
      | Except.error u => Except.error u
      | Except.ok xs => Except.ok (x :: xs)

/-- Point update of the property state. -/
def upd {V : Type} (st : Nat → V) (i : Nat) (v : V) : Nat → V :=
  fun j => if j = i then v else st j

/-- A (substituted) target is acted on by the `set` loop when it is distinct
from the linked element and its `set_<property>` exists (a missing setter
makes `getattr(elm, "set_"+property_name, None)(...)` raise `TypeError`,
which is caught and the target skipped). -/
def setKeep (A : Env) (e : Nat) (x : Nat) : Bool := (!(x == e)) && (A x).hasSetter

/-- Likewise for the `getAll` loop with `get_<property>` (lines 121-125). -/
def getKeep (A : Env) (e : Nat) (x : Nat) : Bool := (!(x == e)) && (A x).hasGetter

/-- The target loop of the non-direct `set` closure (lines 87-100). -/
def setLoop {V : Type} (A : Env) (e : Nat) (lo : Option Bool) (v : V) :
    List Nat → (Nat → V) → List Nat → Except Unit ((Nat → V) × List Nat)
  | [], st, els => Except.ok (st, els)
  | t :: ts, st, els =>
    match substTarget A lo t with
    | Except.error u => Except.error u
    | Except.ok elm =>
      if elm ≠ e then
        if (A elm).hasSetter then setLoop A e lo v ts (upd st elm v) (els ++ [elm])
        else setLoop A e lo v ts st els
      else setLoop A e lo v ts st els

/-- The non-direct `set` closure `setLinkedProperty` (lines 66-101) on the
path taken by `updateLink` (`v_list is None`, all written values equal the
widget value `v`): compute the label special case, call `set_<property>` on
the linked element (`getattr` without a default: a missing setter raises
`AttributeError`), then run the target loop; returns the new state and the
list of elements whose property was set. -/
def setLinkedProperty {V : Type} (A : Env) (e : Nat) (targets : List Nat) (v : V)
    (st : Nat → V) : Except Unit ((Nat → V) × List Nat) :=
  match labelObject A e targets with
  | Except.error u => Except.error u
  | Except.ok lo =>
    if (A e).hasSetter then setLoop A e lo v targets (upd st e v) [e]
    else Except.error ()

/-- The target loop of `getAll` (lines 116-126). -/
def getLoop {V : Type} (A : Env) (e : Nat) (lo : Option Bool) (st : Nat → V) :
    List Nat → List (Nat × V) → Except Unit (List (Nat × V))
  | [], vals => Except.ok vals
  | t :: ts, vals =>
    match substTarget A lo t with
    | Except.error u => Except.error u
    | Except.ok elm =>
      if elm ≠ e then
        if (A elm).hasGetter then getLoop A e lo st ts (vals ++ [(elm, st elm)])
        else getLoop A e lo st ts vals
      else getLoop A e lo st ts vals

/-- `getAll` alias `getLinkedPropertyAll` (lines 103-126, 130): the property's
current value on the linked element (`getattr` without a default: a missing
getter raises `AttributeError`) and on every substituted target distinct from
it; the fixed `property_name` component of the recorded triples is dropped. -/
def getLinkedPropertyAll {V : Type} (A : Env) (e : Nat) (targets : List Nat)
    (st : Nat → V) : Except Unit (List (Nat × V)) :=
  match labelObject A e targets with
  | Except.error u => Except.error u
  | Except.ok lo =>
    if (A e).hasGetter then getLoop A e lo st targets [(e, st e)]
    else Except.error ()

/-- A change registered with the figure's change tracker by `save_change`
(lines 163-172): `addNewTextChange` for `Text` elements, otherwise
`addChange` with the serialized setter call. -/
inductive TrackedChange where
  | textChange (elem : Nat)
  | change (elem : Nat) (s : String)
deriving DecidableEq

/-- `serializeLinkedProperty` of the non-direct branch (line 131). -/
def serializeLinkedProperty (property_name x : String) : String :=
  ".set_" ++ property_name ++ "(" ++ x ++ ")"

def saveChange (A : Env) (property_name ser : String) (elem : Nat) : TrackedChange :=
  if (A elem).isText then TrackedChange.textChange elem
  else TrackedChange.change elem (serializeLinkedProperty property_name ser)

/-- The body of `undo`/`redo` (lines 174-182): set every recorded element's
property to its recorded value (`getattr(elem, "set_"+property_name, None)`
followed by a call: a missing setter raises an uncaught `TypeError`) and
register each change with the change tracker. -/
def applyVals {V : Type} (A : Env) (property_name ser : String) :
    List (Nat × V) → (Nat → V) → List TrackedChange →
      Except Unit ((Nat → V) × List TrackedChange)
  | [], st, chs => Except.ok (st, chs)
  | (i, x) :: rest, st, chs =>
    if (A i).hasSetter then
      applyVals A property_name ser rest (upd st i x) (chs ++ [saveChange A property_name ser i])
    else Except.error ()

/-- What `updateLink` (lines 152-192) hands to the change tracker on success:
the new property state, the `elements` whose property was set, the values
captured before (`old_value`, driving `undo`) and after (`new_value`, driving
`redo`) the edit, and the description passed to `addEdit`. -/
structure UpdateResult (V : Type) where
  st2 : Nat → V
  elements : List Nat
  undoVals : List (Nat × V)
  redoVals : List (Nat × V)
  desc : String

/-- `Linkable.updateLink` in non-direct mode: capture `old_value`, apply the
widget's value (only an `AttributeError` from `setLinkedProperty` is caught,
returning without registering anything, modelled as `Except.ok none`),
capture `new_value`, and register the edit with the figure's change
tracker. -/
def updateLink {V : Type} (A : Env) (e : Nat) (targets : List Nat) (v : V)
    (st : Nat → V) : Except Unit (Option (UpdateResult V)) :=
  match getLinkedPropertyAll A e targets st with
  | Except.error u => Except.error u
  | Except.ok old =>
    match setLinkedProperty A e targets v st with
    | Except.error _ => Except.ok none
    | Except.ok (st2, els) =>
      match getLinkedPropertyAll A e targets st2 with
      | Except.error u => Except.error u
      | Except.ok new => Except.ok (some ⟨st2, els, old, new, "Change property"⟩)

/-- The widget state that `Linkable.setTarget` touches. -/
structure WidgetState (V : Type) where
  element : Option Nat
  displayed : Option V
  enabled : Bool
  visible : Bool

/-- `Linkable.setTarget` (lines 141-150): assign the element, display the
current property value (`set(self.getLinkedProperty())`) and enable the
widget exactly when the condition holds; on `AttributeError` (missing
getter) hide the widget without touching the displayed value. -/
def setTarget {V : Type} (A : Env) (cond : Nat → Bool) (w : WidgetState V) (e : Nat)
    (st : Nat → V) : WidgetState V :=
  if (A e).hasGetter then ⟨some e, some (st e), cond e, true⟩
  else { w with element := some e, visible := false }

theorem ifMem_cons {V : Type} (v : V) (st : Nat → V) (elm : Nat) (l : List Nat) :
    (fun i => if i ∈ l then v else upd st elm v i) =
      (fun i => if i ∈ elm :: l then v else st i) := by
  funext i
  by_cases hi : i ∈ l
  · simp [hi]
  · by_cases hie : i = elm
    · subst hie
      simp [hi, upd]
    · simp [hi, hie, upd]

theorem mapSubst_cons_error (A : Env) (lo : Option Bool) (t : Nat) (ts : List Nat)
    (u : Unit) (h : substTarget A lo t = Except.error u) :
    mapSubst A lo (t :: ts) = Except.error u := by
  simp [mapSubst, h]

theorem mapSubst_cons_ok_error (A : Env) (lo : Option Bool) (t : Nat) (ts : List Nat)
    (x : Nat) (u : Unit) (h : substTarget A lo t = Except.ok x)
    (h2 : mapSubst A lo ts = Except.error u) :
    mapSubst A lo (t :: ts) = Except.error u := by
  simp [mapSubst, h, h2]

theorem mapSubst_cons_ok_ok (A : Env) (lo : Option Bool) (t : Nat) (ts : List Nat)
    (x : Nat) (xs : List Nat) (h : substTarget A lo t = Except.ok x)
    (h2 : mapSubst A lo ts = Except.ok xs) :
    mapSubst A lo (t :: ts) = Except.ok (x :: xs) := by
  simp [mapSubst, h, h2]

theorem setLoop_cons_error {V : Type} (A : Env) (e : Nat) (lo : Option Bool) (v : V)
    (t : Nat) (ts : List Nat) (st : Nat → V) (els : List Nat) (u : Unit)
    (h : substTarget A lo t = Except.error u) :
    setLoop A e lo v (t :: ts) st els = Except.error u := by
  simp [setLoop, h]

theorem setLoop_cons_ok {V : Type} (A : Env) (e : Nat) (lo : Option Bool) (v : V)
    (t : Nat) (ts : List Nat) (st : Nat → V) (els : List Nat) (elm : Nat)
    (h : substTarget A lo t = Except.ok elm) :
    setLoop A e lo v (t :: ts) st els =
      if elm ≠ e then
        if (A elm).hasSetter then setLoop A e lo v ts (upd st elm v) (els ++ [elm])
        else setLoop A e lo v ts st els
      else setLoop A e lo v ts st els := by
  simp [setLoop, h]

theorem setLoop_eq {V : Type} (A : Env) (e : Nat) (lo : Option Bool) (v : V) :
    ∀ (ts : List Nat) (st : Nat → V) (els : List Nat),
      setLoop A e lo v ts st els =
        Except.map (fun subs =>
            ((fun i => if i ∈ subs.filter (setKeep A e) then v else st i),
             els ++ subs.filter (setKeep A e)))
          (mapSubst A lo ts) := by
  intro ts
  induction ts with
  | nil =>
    intro st els
    simp only [setLoop, mapSubst, Except.map, List.filter_nil, List.append_nil]
    have hst : (fun i => if i ∈ ([] : List Nat) then v else st i) = st := by
      funext i
      simp
    rw [hst]
  | cons t ts ih =>
    intro st els
    cases hsub : substTarget A lo t with
    | error u =>
      rw [setLoop_cons_error A e lo v t ts st els u hsub,
        mapSubst_cons_error A lo t ts u hsub]
      rfl
    | ok elm =>
      rw [setLoop_cons_ok A e lo v t ts st els elm hsub]
      cases hms : mapSubst A lo ts with
      | error u =>
        rw [mapSubst_cons_ok_error A lo t ts elm u hsub hms]
        split
        · split
          · rw [ih, hms]
            rfl
          · rw [ih, hms]
        · rw [ih, hms]
      | ok subs =>
        rw [mapSubst_cons_ok_ok A lo t ts elm subs hsub hms]
        split
        case isTrue h1 =>
          split
          case isTrue h2 =>
            have hkeep : (elm :: subs).filter (setKeep A e) =
                elm :: subs.filter (setKeep A e) := by
              have hk : setKeep A e elm = true := by
                simp only [setKeep, h2, Bool.and_true, Bool.not_eq_true', beq_eq_false_iff_ne]
                exact h1
              simp [List.filter_cons, hk]
            rw [ih, hms]
            simp only [Except.map, hkeep]
            rw [ifMem_cons v st elm (subs.filter (setKeep A e))]
            simp [List.append_assoc]
          case isFalse h2 =>
            have hkeep : (elm :: subs).filter (setKeep A e) = subs.filter (setKeep A e) := by
              have hk : setKeep A e elm = false := by
                simp only [setKeep, Bool.and_eq_false_iff]
                right
                simpa using h2
              simp [List.filter_cons, hk]
            rw [ih, hms]
            simp only [Except.map, hkeep]
        case isFalse h1 =>
          have hkeep : (elm :: subs).filter (setKeep A e) = subs.filter (setKeep A e) := by
            have h1e : elm = e := not_not.mp h1
            have hk : setKeep A e elm = false := by
              simp [setKeep, h1e]
            simp [List.filter_cons, hk]
          rw [ih, hms]
          simp only [Except.map, hkeep]

theorem getLoop_cons_error {V : Type} (A : Env) (e : Nat) (lo : Option Bool) (st : Nat → V)
    (t : Nat) (ts : List Nat) (vals : List (Nat × V)) (u : Unit)
    (h : substTarget A lo t = Except.error u) :
    getLoop A e lo st (t :: ts) vals = Except.error u := by
  simp [getLoop, h]

theorem getLoop_cons_ok {V : Type} (A : Env) (e : Nat) (lo : Option Bool) (st : Nat → V)
    (t : Nat) (ts : List Nat) (vals : List (Nat × V)) (elm : Nat)
    (h : substTarget A lo t = Except.ok elm) :
    getLoop A e lo st (t :: ts) vals =
      if elm ≠ e then
        if (A elm).hasGetter then getLoop A e lo st ts (vals ++ [(elm, st elm)])
        else getLoop A e lo st ts vals
      else getLoop A e lo st ts vals := by
  simp [getLoop, h]

theorem getLoop_eq {V : Type} (A : Env) (e : Nat) (lo : Option Bool) (st : Nat → V) :
    ∀ (ts : List Nat) (vals : List (Nat × V)),
      getLoop A e lo st ts vals =
        Except.map
          (fun subs => vals ++ (subs.filter (getKeep A e)).map (fun x => (x, st x)))
          (mapSubst A lo ts) := by
  intro ts
  induction ts with
  | nil =>
    intro vals
    simp [getLoop, mapSubst, Except.map]
  | cons t ts ih =>
    intro vals
    cases hsub : substTarget A lo t with
    | error u =>
      rw [getLoop_cons_error A e lo st t ts vals u hsub,
        mapSubst_cons_error A lo t ts u hsub]
      rfl
    | ok elm =>
      rw [getLoop_cons_ok A e lo st t ts vals elm hsub]
      cases hms : mapSubst A lo ts with
      | error u =>
        rw [mapSubst_cons_ok_error A lo t ts elm u hsub hms]
        split
        · split
          · rw [ih, hms]
            rfl
          · rw [ih, hms]
        · rw [ih, hms]
      | ok subs =>
        rw [mapSubst_cons_ok_ok A lo t ts elm subs hsub hms]
        split
        case isTrue h1 =>
          split
          case isTrue h2 =>
            have hkeep : (elm :: subs).filter (getKeep A e) =
                elm :: subs.filter (getKeep A e) := by
              have hk : getKeep A e elm = true := by
                simp only [getKeep, h2, Bool.and_true, Bool.not_eq_true', beq_eq_false_iff_ne]
                exact h1
              simp [List.filter_cons, hk]
            rw [ih, hms]
            simp [Except.map, hkeep, List.append_assoc]
          case isFalse h2 =>
            have hkeep : (elm :: subs).filter (getKeep A e) = subs.filter (getKeep A e) := by
              have hk : getKeep A e elm = false := by
                simp only [getKeep, Bool.and_eq_false_iff]
                right
                simpa using h2
              simp [List.filter_cons, hk]
            rw [ih, hms]
            simp only [Except.map, hkeep]
        case isFalse h1 =>
          have hkeep : (elm :: subs).filter (getKeep A e) = subs.filter (getKeep A e) := by
            have h1e : elm = e := not_not.mp h1
            have hk : getKeep A e elm = false := by
              simp [getKeep, h1e]
            simp [List.filter_cons, hk]
          rw [ih, hms]
          simp only [Except.map, hkeep]

theorem ifMemG_cons {V : Type} (g st : Nat → V) (elm : Nat) (l : List Nat) :
    (fun i => if i ∈ l then g i else upd st elm (g elm) i) =
      (fun i => if i ∈ elm :: l then g i else st i) := by
  funext i
  by_cases hi : i ∈ l
  · simp [hi]
  · by_cases hie : i = elm
    · subst hie
      simp [hi, upd]
    · simp [hi, hie, upd]

theorem applyVals_eq {V : Type} (A : Env) (pn ser : String) (g : Nat → V) :
    ∀ (vals : List (Nat × V)) (st : Nat → V) (chs : List TrackedChange),
      (∀ p ∈ vals, (A p.1).hasSetter = true ∧ p.2 = g p.1) →
      applyVals A pn ser vals st chs =
        Except.ok
          ((fun i => if i ∈ vals.map Prod.fst then g i else st i),
           chs ++ vals.map (fun p => saveChange A pn ser p.1)) := by
  intro vals
  induction vals with
  | nil =>
    intro st chs _
    simp only [applyVals, List.map_nil, List.append_nil]
    have hst : (fun i => if i ∈ ([] : List Nat) then g i else st i) = st := by
      funext i
      simp
    rw [hst]
  | cons p rest ih =>
    intro st chs hall
    obtain ⟨i, x⟩ := p
    have hi := hall (i, x) (List.mem_cons_self _ _)
    simp only at hi
    have hstep : applyVals A pn ser ((i, x) :: rest) st chs =
        applyVals A pn ser rest (upd st i x) (chs ++ [saveChange A pn ser i]) := by
      simp [applyVals, hi.1]
    rw [hstep, ih (upd st i x) (chs ++ [saveChange A pn ser i])
      (fun q hq => hall q (List.mem_cons_of_mem _ hq))]
    rw [hi.2]
    simp only [List.map_cons]
    rw [ifMemG_cons g st i (List.map Prod.fst rest)]
    simp [List.append_assoc]

theorem keep_congr (A : Env) (e : Nat)
    (hgs : ∀ i, (A i).hasGetter = (A i).hasSetter) : getKeep A e = setKeep A e := by
  funext x
  simp [getKeep, setKeep, hgs x]

theorem setLinkedProperty_char {V : Type} (A : Env) (e : Nat) (targets : List Nat)
    (v : V) (st st2 : Nat → V) (els : List Nat)
    (h : setLinkedProperty A e targets v st = Except.ok (st2, els)) :
    ∃ lo subs, labelObject A e targets = Except.ok lo ∧
      mapSubst A lo targets = Except.ok subs ∧
      (A e).hasSetter = true ∧
      els = e :: subs.filter (setKeep A e) ∧
      st2 = fun i => if i ∈ els then v else st i := by
  cases hlo : labelObject A e targets with
  | error u => simp [setLinkedProperty, hlo] at h
  | ok lo =>
    by_cases hset : (A e).hasSetter = true
    · have h2 : setLoop A e lo v targets (upd st e v) [e] = Except.ok (st2, els) := by
        rw [← h]
        simp [setLinkedProperty, hlo, hset]
      rw [setLoop_eq] at h2
      cases hms : mapSubst A lo targets with
      | error u =>
        rw [hms] at h2
        simp [Except.map] at h2
      | ok subs =>
        rw [hms] at h2
        simp only [Except.map, Except.ok.injEq, Prod.mk.injEq] at h2
        obtain ⟨hfun, hels⟩ := h2
        have hels2 : els = e :: subs.filter (setKeep A e) := by
          rw [← hels]
          simp
        refine ⟨lo, subs, rfl, hms, hset, hels2, ?_⟩
        rw [← hfun, hels2]
        exact ifMem_cons v st e (subs.filter (setKeep A e))
    · exfalso
      have h2 : Except.error () = Except.ok (st2, els) := by
        rw [← h]
        simp [setLinkedProperty, hlo, hset]
      simp at h2

theorem getAll_char {V : Type} (A : Env) (e : Nat) (targets : List Nat)
    (st : Nat → V) (old : List (Nat × V))
    (h : getLinkedPropertyAll A e targets st = Except.ok old) :
    ∃ lo subs, labelObject A e targets = Except.ok lo ∧
      mapSubst A lo targets = Except.ok subs ∧
      (A e).hasGetter = true ∧
      old = (e, st e) :: (subs.filter (getKeep A e)).map (fun x => (x, st x)) := by
  cases hlo : labelObject A e targets with
  | error u => simp [getLinkedPropertyAll, hlo] at h
  | ok lo =>
    by_cases hget : (A e).hasGetter = true
    · have h2 : getLoop A e lo st targets [(e, st e)] = Except.ok old := by
        rw [← h]
        simp [getLinkedPropertyAll, hlo, hget]
      rw [getLoop_eq] at h2
      cases hms : mapSubst A lo targets with
      | error u =>
        rw [hms] at h2
        simp [Except.map] at h2
      | ok subs =>
        rw [hms] at h2
        simp only [Except.map, Except.ok.injEq] at h2
        refine ⟨lo, subs, rfl, hms, hget, ?_⟩
        rw [← h2]
        simp
    · exfalso
      have h2 : Except.error () = Except.ok old := by
        rw [← h]
        simp [getLinkedPropertyAll, hlo, hget]
      simp at h2

theorem map_fst_pairs {V : Type} (st : Nat → V) (l : List Nat) :
    (l.map (fun x => (x, st x))).map Prod.fst = l := by
  induction l with
  | nil => simp
  | cons a l ih => simp [ih]

theorem pairs_snd {V : Type} (st : Nat → V) (e : Nat) (l : List Nat) :
    ∀ p ∈ ((e, st e) :: l.map (fun x => (x, st x))), p.2 = st p.1 := by
  intro p hp
  rcases List.mem_cons.mp hp with h1 | h2
  · rw [h1]
  · obtain ⟨x, _, hpx⟩ := List.mem_map.mp h2
    rw [← hpx]

theorem getKeep_mem_getter (A : Env) (e : Nat) (l : List Nat) (x : Nat)
    (hx : x ∈ l.filter (getKeep A e)) : (A x).hasGetter = true := by
  have h := (List.mem_filter.mp hx).2
  simp only [getKeep, Bool.and_eq_true] at h
  exact h.2

theorem updateLink_ok_elim {V : Type} (A : Env) (e : Nat) (targets : List Nat)
    (v : V) (st : Nat → V) (res : UpdateResult V)
    (h : updateLink A e targets v st = Except.ok (some res)) :
    ∃ old st2 els new,
      getLinkedPropertyAll A e targets st = Except.ok old ∧
      setLinkedProperty A e targets v st = Except.ok (st2, els) ∧
      getLinkedPropertyAll A e targets st2 = Except.ok new ∧
      res = ⟨st2, els, old, new, "Change property"⟩ := by
  cases hga : getLinkedPropertyAll A e targets st with
  | error u => simp [updateLink, hga] at h
  | ok old =>
    cases hsp : setLinkedProperty A e targets v st with
    | error u => simp [updateLink, hga, hsp] at h
    | ok p =>
      obtain ⟨st2, els⟩ := p
      cases hga2 : getLinkedPropertyAll A e targets st2 with
      | error u => simp [updateLink, hga, hsp, hga2] at h
      | ok new =>
        have h2 : (Except.ok (some (UpdateResult.mk st2 els old new "Change property")) :
              Except Unit (Option (UpdateResult V))) = Except.ok (some res) := by
          rw [← h]
          simp [updateLink, hga, hsp, hga2]
        simp only [Except.ok.injEq, Option.some.injEq] at h2
        exact ⟨old, st2, els, new, rfl, rfl, hga2, h2.symm⟩

end Link

/-! Concrete environments exercising the `Linkable` model. -/

namespace LinkEx

/-- An ordinary artist (not a text, not an axes) with both accessors. -/
def plainArtist : Link.LArtist := ⟨false, false, 0, 0, true, true⟩

def env : Link.Env := fun _ => plainArtist

def st0 : Nat → Int := fun _ => 0

/-- A `Text` element with both accessors (serving as an axis label). -/
def textElem : Link.LArtist := ⟨true, false, 0, 0, true, true⟩

/-- An `Axes` whose x-axis label is element `0`. -/
def axesWithXlabel0 : Link.LArtist := ⟨false, true, 0, 7, true, true⟩

/-- Element 0 is a text, element 1 an axes whose x label is element 0. -/
def cenv : Link.Env := fun i =>
  if i = 0 then textElem else if i = 1 then axesWithXlabel0 else plainArtist

/-- The result of a concrete `setLinkedProperty` run. -/
def sRes : (Nat → Int) × List Nat :=
  match Link.setLinkedProperty env 0 [1, 2] (7 : Int) st0 with
  | Except.ok p => p
  | Except.error _ => (st0, [])

/-- The result of a concrete `updateLink` run. -/
def uRes : Link.UpdateResult Int :=
  match Link.updateLink env 0 [1, 2] (7 : Int) st0 with
  | Except.ok (some r) => r
  | _ => ⟨st0, [], [], [], ""⟩

end LinkEx

/-! ### Color catalog and swap engine (QtGui.py lines 104-223)

Artists form a tree (`get_children`); each artist exposes the five color
properties through `get_<name>` accessors, modelled as an association list.
A color object either is a plain color (an RGBA tuple with 0-255 channels;
`none` models objects `mpl.colors.to_hex` rejects with `ValueError`) or
additionally carries the `cmap`/`value` attributes of pylustrator's special
colormap-tied colors.  Colormap objects themselves live outside this excerpt:
a colormap either has the custom `get_color`/`set_color` interface (modelled
as `some` list of lowercase hex color strings, on which `to_hex` is the
identity) or is an ordinary matplotlib colormap (`none`). -/

namespace Colors

inductive ArtKind where
  | text
  | xtick
  | ytick
  | other
deriving DecidableEq

structure ColorObj where
  rgba : Option (Nat × Nat × Nat × Nat)
  cmapval : Option (Nat × Nat)
deriving DecidableEq

/-- What a `get_<color property>` accessor returns: `unset` models `None` (or
a missing accessor, line 121), `single` a lone color (string, tuple, or a
colormap-tied color object, wrapped into a one-element list by lines
127-129), `many` a list or two-dimensional array of colors. -/
inductive ColorVal where
  | unset
  | single (c : ColorObj)
  | many (cs : List ColorObj)
deriving DecidableEq

inductive Art where
  | node (id : Nat) (kind : ArtKind) (textStr : String) (noSave : Bool)
      (props : List (String × ColorVal)) (children : List Art)

def Art.id : Art → Nat
  | Art.node i _ _ _ _ _ => i

def Art.kind : Art → ArtKind
  | Art.node _ k _ _ _ _ => k

def Art.textStr : Art → String
  | Art.node _ _ t _ _ _ => t

def Art.noSave : Art → Bool
  | Art.node _ _ _ n _ _ => n

def Art.props : Art → List (String × ColorVal)
  | Art.node _ _ _ _ p _ => p

def Art.children : Art → List Art
  | Art.node _ _ _ _ _ c => c

def Art.childIds (a : Art) : List Nat := a.children.map Art.id

def hexDigit (n : Nat) : Char :=
  if n < 10 then Char.ofNat (48 + n) else Char.ofNat (87 + n)

def byteHex (n : Nat) : List Char := [hexDigit (n / 16 % 16), hexDigit (n % 16)]

/-- `mpl.colors.to_hex` with its default `keep_alpha=False`: the lowercase
`#rrggbb` string, dropping alpha; `none` models `ValueError`. -/
def toHex (c : ColorObj) : Option String :=
  match c.rgba with
  | none => none
  | some (r, g, b, _) => some (String.mk ('#' :: (byteHex r ++ byteHex g ++ byteHex b)))

/-- The alpha channel `mpl.colors.to_rgba(color)[3]` (scaled to 0-255). -/
def alphaOf (c : ColorObj) : Nat :=
  match c.rgba with
  | none => 0
  | some (_, _, _, a) => a

/-- Colormap registry: `name` and, for pylustrator's custom colormaps with
`get_color`/`set_color`, the list of colors. -/
structure CMapInfo where
  name : String
  colors : Option (List String)

abbrev CEnv := Nat → CMapInfo

/-- A key of the `color_artists` dictionary: a hex color string, or (for a
colormap-tied color whose colormap lacks `get_color`, line 163) the colormap
object itself. -/
inductive CKey where
  | hex (s : String)
  | cmapKey (cid : Nat)
deriving DecidableEq

/-- One `[color_type_name, artist, value, cmap, index]` entry (lines 160,
165, 176). -/
structure CEntry where
  ctn : String
  artist : Nat
  value : Option Nat
  cmap : Option Nat
  index : Option Nat
deriving DecidableEq

/-- The `color_artists` dictionary: insertion-ordered key/entry-list pairs. -/
abbrev Catalog := List (CKey × List CEntry)

/-- The `if color not in color_artists: color_artists[color] = []` followed by
`color_artists[color].append(...)` idiom: append to an existing key's list,
or append a new key at the end. -/
def catInsert (cat : Catalog) (k : CKey) (en : CEntry) : Catalog :=
  match cat with
  | [] => [(k, [en])]
  | (k2, es) :: rest =>
    if k2 = k then (k2, es ++ [en]) :: rest
    else (k2, es) :: catInsert rest k en

/-- Dictionary lookup `color_artists[key]` (`none` models `KeyError`). -/
def catFind (cat : Catalog) (k : CKey) : Option (List CEntry) :=
  match cat with
  | [] => none
  | (k2, es) :: rest => if k2 = k then some es else catFind rest k

/-- `k` maps to a list containing `en`. -/
def MemCat (cat : Catalog) (k : CKey) (en : CEntry) : Prop :=
  ∃ es, catFind cat k = some es ∧ en ∈ es

def propNames : List String :=
  ["edgecolor", "facecolor", "color", "markeredgecolor", "markerfacecolor"]

/-- `getattr(artist, "get_" + color_type_name, lambda: None)()` (line 121). -/
def lookupProp (props : List (String × ColorVal)) (ctn : String) : ColorVal :=
  match props.find? (fun p => p.1 == ctn) with
  | none => ColorVal.unset
  | some p => p.2

/-- Lines 123-129: skip unset/empty values, wrap a single color into a list,
iterate lists elementwise. -/
def colorsOf : ColorVal → List ColorObj
  | ColorVal.unset => []
  | ColorVal.single c => [c]
  | ColorVal.many cs => cs

/-- Lines 132-176: catalog one color object of artist `aid` found under the
property `ctn`: skip colors `to_hex` rejects and pure black/white; for a
colormap-tied color, catalog every color of a `get_color` colormap (keys are
the colormap's colors), or the colormap object itself otherwise; for a plain
color skip fully transparent ones and catalog its hex string. -/
def addColor (cm : CEnv) (aid : Nat) (ctn : String) (c : ColorObj) (cat : Catalog) :
    Catalog :=
  match toHex c with
  | none => cat
  | some h =>
    if h = "#000000" ∨ h = "#ffffff" then cat
    else
      match c.cmapval with
      | some (cid, value) =>
        match (cm cid).colors with
        | some cols =>
          cols.enum.foldl
            (fun cat2 p =>
              catInsert cat2 (CKey.hex p.2) ⟨ctn, aid, some value, some cid, some p.1⟩)
            cat
        | none => catInsert cat (CKey.cmapKey cid) ⟨ctn, aid, some value, some cid, some value⟩
      | none =>
        if alphaOf c = 0 then cat
        else catInsert cat (CKey.hex h) ⟨ctn, aid, none, none, none⟩

/-- Lines 120-176: the color loop over the five property names. -/
def addArtistColors (cm : CEnv) (a : Art) (cat : Catalog) : Catalog :=
  propNames.foldl
    (fun cat2 ctn =>
      (colorsOf (lookupProp a.props ctn)).foldl (fun cat3 c => addColor cm a.id ctn c cat3) cat2)
    cat

mutual

/-- `addChildren` (lines 104-176): walk the children of `parent`, skipping
empty texts and `_no_save` artists entirely, recursing into every child that
is not a text or tick, and cataloging each visited child's colors. -/
def addChildren (cm : CEnv) (cat : Catalog) : Art → Catalog
  | Art.node _ _ _ _ _ children => addChildrenList cm cat children

def addChildrenList (cm : CEnv) (cat : Catalog) : List Art → Catalog
  | [] => cat
  | a :: rest =>
    let cat1 :=
      if (a.kind = ArtKind.text ∧ a.textStr = "") ∨ a.noSave then cat
      else
        let cat2 :=
          if a.kind = ArtKind.text ∨ a.kind = ArtKind.xtick ∨ a.kind = ArtKind.ytick then cat
          else addChildren cm cat a
        addArtistColors cm a cat2
    addChildrenList cm cat1 rest

end

mutual

/-- The artists whose colors the walk catalogs (the children surviving the
guards, recursively). -/
def visitedArts : Art → List Art
  | Art.node _ _ _ _ _ children => visitedList children

def visitedList : List Art → List Art
  | [] => []
  | a :: rest =>
    (if (a.kind = ArtKind.text ∧ a.textStr = "") ∨ a.noSave then []
     else
       (if a.kind = ArtKind.text ∨ a.kind = ArtKind.xtick ∨ a.kind = ArtKind.ytick then []
        else visitedArts a) ++ [a])
    ++ visitedList rest

end

/-- `figureListColors` (lines 179-182): reset `figure.color_artists` to an
empty dictionary and walk the figure. -/
def figureListColors (cm : CEnv) (fig : Art) : Catalog := addChildren cm [] fig

/-- A value held by an artist's color property after a swap: a plain color
string, `plt.get_cmap(name)(v)`, or a custom (`set_color`-style) colormap
`cid` called at `v` (the colormap's `__call__` lives outside this excerpt and
is kept opaque). -/
inductive PVal where
  | hexs (s : String)
  | stdC (name : String) (v : Nat)
  | customC (cid : Nat) (v : Nat)
deriving DecidableEq

/-- The state `figureSwapColor` threads: the artists' color properties, the
changes registered with the change tracker (artist id and serialized setter
call), the `set_color` calls issued to custom colormaps, and the
`changed_cmaps` bookkeeping list. -/
structure SwapState where
  props : Nat → String → Option PVal
  changes : List (Nat × String)
  cmapUpdates : List (Nat × Nat × String)
  changedCmaps : List Nat

def setProp (f : Nat → String → Option PVal) (aid : Nat) (ctn : String) (v : PVal) :
    Nat → String → Option PVal :=
  fun a c => if a = aid ∧ c = ctn then some v else f a c

def cmapChangeStr (ctn name : String) (v : Nat) : String :=
  ".set_" ++ ctn ++ "(plt.get_cmap(\"" ++ name ++ "\")(" ++ toString v ++ "))"

def plainChangeStr (ctn nc : String) : String :=
  ".set_" ++ ctn ++ "(\"" ++ nc ++ "\")"

/-- One loop iteration of `figureSwapColor` (lines 191-223) for the entry
`en`, swapping to color `nc`; `maps` is `plt.colormaps()`. -/
def swapStep (cm : CEnv) (maps : List String) (nc : String) (s : SwapState) (en : CEntry) :
    SwapState :=
  match en.cmap with
  | some cid =>
    let hasSet := (cm cid).colors.isSome
    let s1 :=
      if cid ∈ s.changedCmaps then s
      else
        { s with
          changedCmaps := s.changedCmaps ++ [cid],
          cmapUpdates :=
            if hasSet then s.cmapUpdates ++ [(cid, en.index.getD 0, nc)] else s.cmapUpdates }
    if hasSet then
      { s1 with
        props := setProp s1.props en.artist en.ctn (PVal.customC cid (en.value.getD 0)),
        changes := s1.changes ++
          [(en.artist, cmapChangeStr en.ctn (cm cid).name (en.value.getD 0))] }
    else if nc ∈ maps then
      { s1 with
        props := setProp s1.props en.artist en.ctn (PVal.stdC nc (en.value.getD 0)),
        changes := s1.changes ++ [(en.artist, cmapChangeStr en.ctn nc (en.value.getD 0))] }
    else
      { s1 with
        props := setProp s1.props en.artist en.ctn (PVal.hexs nc),
        changes := s1.changes ++ [(en.artist, plainChangeStr en.ctn nc)] }
  | none =>
    if nc ∈ maps then
      { s with
        props := setProp s.props en.artist en.ctn (PVal.stdC nc 0),
        changes := s.changes ++ [(en.artist, cmapChangeStr en.ctn nc 0)] }
    else
      { s with
        props := setProp s.props en.artist en.ctn (PVal.hexs nc),
        changes := s.changes ++ [(en.artist, plainChangeStr en.ctn nc)] }

/-- A figure as `figureSwapColor` sees it: the artist tree and the
`color_artists` attribute (`none` models the attribute being absent). -/
structure SFig where
  tree : Art
  colorArtists : Option Catalog

/-- Lines 187-188: use the stored catalog, computing it first with
`figureListColors` when the figure has none. -/
def usedCatalog (cm : CEnv) (fig : SFig) : Catalog :=
  match fig.colorArtists with
  | some c => c
  | none => figureListColors cm fig.tree

/-- `figureSwapColor` (lines 185-223): look up the entries for `cb` and fold
the swap step over them; `none` models the `KeyError` for an absent key. -/
def figureSwapColor (cm : CEnv) (maps : List String) (fig : SFig)
    (init : Nat → String → Option PVal) (nc cb : String) : Option SwapState :=
  match catFind (usedCatalog cm fig) (CKey.hex cb) with
  | none => none
  | some entries => some (entries.foldl (swapStep cm maps nc) ⟨init, [], [], []⟩)

/-- The value an entry's artist property receives, read off the four branches
of the loop body. -/
def expectedVal (cm : CEnv) (maps : List String) (nc : String) (en : CEntry) : PVal :=
  match en.cmap with
  | some cid =>
    if (cm cid).colors.isSome then PVal.customC cid (en.value.getD 0)
    else if nc ∈ maps then PVal.stdC nc (en.value.getD 0)
    else PVal.hexs nc
  | none => if nc ∈ maps then PVal.stdC nc 0 else PVal.hexs nc

/-- The change registered for an entry, read off the four branches. -/
def expectedChange (cm : CEnv) (maps : List String) (nc : String) (en : CEntry) :
    Nat × String :=
  match en.cmap with
  | some cid =>
    if (cm cid).colors.isSome then
      (en.artist, cmapChangeStr en.ctn (cm cid).name (en.value.getD 0))
    else if nc ∈ maps then (en.artist, cmapChangeStr en.ctn nc (en.value.getD 0))
    else (en.artist, plainChangeStr en.ctn nc)
  | none =>
    if nc ∈ maps then (en.artist, cmapChangeStr en.ctn nc 0)
    else (en.artist, plainChangeStr en.ctn nc)

/-- A plain (non-colormap) color of artist `aid` under property `ctn` that
the walk catalogs under key `k` as entry `en`: it has a hex value, is neither
pure black nor pure white, carries no colormap, and is not fully
transparent. -/
def Qual (aid : Nat) (ctn : String) (c : ColorObj) (k : CKey) (en : CEntry) : Prop :=
  ∃ h, toHex c = some h ∧ h ≠ "#000000" ∧ h ≠ "#ffffff" ∧ c.cmapval = none ∧
    alphaOf c ≠ 0 ∧ k = CKey.hex h ∧ en = ⟨ctn, aid, none, none, none⟩

/-- What one artist can contribute to the catalog: every entry names the
artist, and every non-colormap entry comes from one of its qualifying plain
colors. -/
def EntryOk (a : Art) (k : CKey) (en : CEntry) : Prop :=
  en.artist = a.id ∧
  (en.cmap = none →
    ∃ ctn ∈ propNames, ∃ c ∈ colorsOf (lookupProp a.props ctn), Qual a.id ctn c k en)

theorem memCat_nil (k : CKey) (en : CEntry) : ¬ MemCat [] k en := by
  rintro ⟨es, hfind, _⟩
  simp [catFind] at hfind

theorem memCat_cons (k3 : CKey) (es : List CEntry) (rest : Catalog) (k : CKey) (en : CEntry) :
    MemCat ((k3, es) :: rest) k en ↔ (k3 = k ∧ en ∈ es) ∨ (k3 ≠ k ∧ MemCat rest k en) := by
  unfold MemCat
  by_cases h : k3 = k
  · simp [catFind, h]
  · simp [catFind, h]

theorem catInsert_cons_eq (k3 : CKey) (es : List CEntry) (rest : Catalog) (en2 : CEntry) :
    catInsert ((k3, es) :: rest) k3 en2 = (k3, es ++ [en2]) :: rest := by
  simp [catInsert]

theorem catInsert_cons_ne (k3 : CKey) (es : List CEntry) (rest : Catalog) (k2 : CKey)
    (en2 : CEntry) (h : k3 ≠ k2) :
    catInsert ((k3, es) :: rest) k2 en2 = (k3, es) :: catInsert rest k2 en2 := by
  simp [catInsert, h]

theorem memCat_catInsert_iff (k2 : CKey) (en2 : CEntry) :
    ∀ (cat : Catalog) (k : CKey) (en : CEntry),
      MemCat (catInsert cat k2 en2) k en ↔ MemCat cat k en ∨ (k = k2 ∧ en = en2) := by
  intro cat
  induction cat with
  | nil =>
    intro k en
    simp only [catInsert]
    rw [memCat_cons]
    constructor
    · rintro (⟨hk, hen⟩ | ⟨_, hmem⟩)
      · right
        refine ⟨hk.symm, ?_⟩
        simpa using hen
      · exact absurd hmem (memCat_nil k en)
    · rintro (hmem | ⟨hk, hen⟩)
      · exact absurd hmem (memCat_nil k en)
      · exact Or.inl ⟨hk.symm, by simp [hen]⟩
  | cons p rest ih =>
    intro k en
    obtain ⟨k3, es⟩ := p
    by_cases h32 : k3 = k2
    · subst h32
      rw [catInsert_cons_eq, memCat_cons, memCat_cons]
      by_cases hk : k3 = k
      · subst hk
        constructor
        · rintro (⟨_, hen⟩ | ⟨hne, _⟩)
          · rcases List.mem_append.mp hen with h1 | h1
            · exact Or.inl (Or.inl ⟨rfl, h1⟩)
            · exact Or.inr ⟨rfl, by simpa using h1⟩
          · exact absurd rfl hne
        · rintro ((⟨_, hen⟩ | ⟨hne, _⟩) | ⟨_, hen⟩)
          · exact Or.inl ⟨rfl, List.mem_append.mpr (Or.inl hen)⟩
          · exact absurd rfl hne
          · exact Or.inl ⟨rfl, List.mem_append.mpr (Or.inr (by simp [hen]))⟩
      · constructor
        · rintro (⟨hkk, _⟩ | ⟨_, hmem⟩)
          · exact absurd hkk hk
          · exact Or.inl (Or.inr ⟨hk, hmem⟩)
        · rintro ((⟨hkk, _⟩ | ⟨_, hmem⟩) | ⟨hkk, _⟩)
          · exact absurd hkk hk
          · exact Or.inr ⟨hk, hmem⟩
          · exact absurd hkk.symm hk
    · rw [catInsert_cons_ne k3 es rest k2 en2 h32, memCat_cons, memCat_cons]
      by_cases hk : k3 = k
      · subst hk
        have hne : ¬ (k3 = k2 ∧ en = en2) := fun hc => h32 hc.1
        constructor
        · rintro (⟨_, hen⟩ | ⟨hne2, _⟩)
          · exact Or.inl (Or.inl ⟨rfl, hen⟩)
          · exact absurd rfl hne2
        · rintro ((⟨_, hen⟩ | ⟨hne2, _⟩) | ⟨hkk, hen⟩)
          · exact Or.inl ⟨rfl, hen⟩
          · exact absurd rfl hne2
          · exact absurd hkk h32
      · constructor
        · rintro (⟨hkk, _⟩ | ⟨_, hmem⟩)
          · exact absurd hkk hk
          · rcases (ih k en).mp hmem with h2 | h2
            · exact Or.inl (Or.inr ⟨hk, h2⟩)
            · exact Or.inr h2
        · rintro ((⟨hkk, _⟩ | ⟨_, hmem⟩) | ⟨hkk, hen⟩)
          · exact absurd hkk hk
          · exact Or.inr ⟨hk, (ih k en).mpr (Or.inl hmem)⟩
          · exact Or.inr ⟨hk, (ih k en).mpr (Or.inr ⟨hkk, hen⟩)⟩

theorem memCat_enumFold_iff (ctn : String) (aid value cid : Nat) :
    ∀ (ps : List (Nat × String)) (cat : Catalog) (k : CKey) (en : CEntry),
      MemCat
          (ps.foldl
            (fun cat2 p =>
              catInsert cat2 (CKey.hex p.2) ⟨ctn, aid, some value, some cid, some p.1⟩)
            cat) k en ↔
        MemCat cat k en ∨
          ∃ p ∈ ps, k = CKey.hex p.2 ∧ en = ⟨ctn, aid, some value, some cid, some p.1⟩ := by
  intro ps
  induction ps with
  | nil =>
    intro cat k en
    simp
  | cons p rest ih =>
    intro cat k en
    simp only [List.foldl_cons]
    rw [ih, memCat_catInsert_iff]
    constructor
    · rintro ((h | ⟨hk, hen⟩) | ⟨q, hq, hkq, henq⟩)
      · exact Or.inl h
      · exact Or.inr ⟨p, List.mem_cons_self _ _, hk, hen⟩
      · exact Or.inr ⟨q, List.mem_cons_of_mem _ hq, hkq, henq⟩
    · rintro (h | ⟨q, hq, hkq, henq⟩)
      · exact Or.inl (Or.inl h)
      · rcases List.mem_cons.mp hq with h1 | h1
        · subst h1
          exact Or.inl (Or.inr ⟨hkq, henq⟩)
        · exact Or.inr ⟨q, h1, hkq, henq⟩

theorem addColor_sound (cm : CEnv) (aid : Nat) (ctn : String) (c : ColorObj)
    (cat : Catalog) (k : CKey) (en : CEntry)
    (h : MemCat (addColor cm aid ctn c cat) k en) :
    MemCat cat k en ∨ (en.artist = aid ∧ (en.cmap = none → Qual aid ctn c k en)) := by
  unfold addColor at h
  split at h
  · exact Or.inl h
  rename_i hx hh
  split at h
  · exact Or.inl h
  rename_i hbw
  split at h
  · rename_i cid value hcv
    split at h
    · rename_i cols hcols
      rcases (memCat_enumFold_iff ctn aid value cid cols.enum cat k en).mp h with
        h2 | ⟨q, _, _, henq⟩
      · exact Or.inl h2
      · refine Or.inr ⟨by rw [henq], ?_⟩
        intro hnone
        rw [henq] at hnone
        simp at hnone
    · rcases (memCat_catInsert_iff _ _ cat k en).mp h with h2 | ⟨_, hen⟩
      · exact Or.inl h2
      · refine Or.inr ⟨by rw [hen], ?_⟩
        intro hnone
        rw [hen] at hnone
        simp at hnone
  · rename_i hcv
    split at h
    · exact Or.inl h
    rename_i ha
    rcases (memCat_catInsert_iff _ _ cat k en).mp h with h2 | ⟨hk, hen⟩
    · exact Or.inl h2
    · refine Or.inr ⟨by rw [hen], ?_⟩
      intro _
      push_neg at hbw
      exact ⟨hx, hh, hbw.1, hbw.2, hcv, ha, hk, hen⟩

theorem addColor_mono (cm : CEnv) (aid : Nat) (ctn : String) (c : ColorObj)
    (cat : Catalog) (k : CKey) (en : CEntry) (h : MemCat cat k en) :
    MemCat (addColor cm aid ctn c cat) k en := by
  unfold addColor
  split
  · exact h
  split
  · exact h
  split
  · rename_i cid value hcv
    split
    · rename_i cols hcols
      exact (memCat_enumFold_iff ctn aid value cid cols.enum cat k en).mpr (Or.inl h)
    · exact (memCat_catInsert_iff _ _ cat k en).mpr (Or.inl h)
  · split
    · exact h
    · exact (memCat_catInsert_iff _ _ cat k en).mpr (Or.inl h)

theorem addColor_plain_eq (cm : CEnv) (aid : Nat) (ctn : String) (c : ColorObj)
    (cat : Catalog) (hx : String) (hh : toHex c = some hx) (hb : hx ≠ "#000000")
    (hw : hx ≠ "#ffffff") (hcv : c.cmapval = none) (ha : alphaOf c ≠ 0) :
    addColor cm aid ctn c cat = catInsert cat (CKey.hex hx) ⟨ctn, aid, none, none, none⟩ := by
  simp [addColor, hh, hcv, hb, hw, ha]

theorem addColor_adds (cm : CEnv) (aid : Nat) (ctn : String) (c : ColorObj)
    (cat : Catalog) (hx : String) (hh : toHex c = some hx) (hb : hx ≠ "#000000")
    (hw : hx ≠ "#ffffff") (hcv : c.cmapval = none) (ha : alphaOf c ≠ 0) :
    MemCat (addColor cm aid ctn c cat) (CKey.hex hx) ⟨ctn, aid, none, none, none⟩ := by
  rw [addColor_plain_eq cm aid ctn c cat hx hh hb hw hcv ha]
  exact (memCat_catInsert_iff _ _ cat _ _).mpr (Or.inr ⟨rfl, rfl⟩)

theorem colorsFold_sound (cm : CEnv) (aid : Nat) (ctn : String) :
    ∀ (cs : List ColorObj) (cat : Catalog) (k : CKey) (en : CEntry),
      MemCat (cs.foldl (fun cat3 c => addColor cm aid ctn c cat3) cat) k en →
      MemCat cat k en ∨
        ∃ c ∈ cs, en.artist = aid ∧ (en.cmap = none → Qual aid ctn c k en) := by
  intro cs
  induction cs with
  | nil =>
    intro cat k en h
    exact Or.inl h
  | cons c rest ih =>
    intro cat k en h
    simp only [List.foldl_cons] at h
    rcases ih _ k en h with h2 | ⟨c2, hc2, hq⟩
    · rcases addColor_sound cm aid ctn c cat k en h2 with h3 | h3
      · exact Or.inl h3
      · exact Or.inr ⟨c, List.mem_cons_self _ _, h3⟩
    · exact Or.inr ⟨c2, List.mem_cons_of_mem _ hc2, hq⟩

theorem colorsFold_mono (cm : CEnv) (aid : Nat) (ctn : String) :
    ∀ (cs : List ColorObj) (cat : Catalog) (k : CKey) (en : CEntry),
      MemCat cat k en →
      MemCat (cs.foldl (fun cat3 c => addColor cm aid ctn c cat3) cat) k en := by
  intro cs
  induction cs with
  | nil =>
    intro cat k en h
    exact h
  | cons c rest ih =>
    intro cat k en h
    simp only [List.foldl_cons]
    exact ih _ k en (addColor_mono cm aid ctn c cat k en h)

theorem colorsFold_adds (cm : CEnv) (aid : Nat) (ctn : String) (c : ColorObj)
    (hx : String) (hh : toHex c = some hx) (hb : hx ≠ "#000000") (hw : hx ≠ "#ffffff")
    (hcv : c.cmapval = none) (ha : alphaOf c ≠ 0) :
    ∀ (cs : List ColorObj) (cat : Catalog), c ∈ cs →
      MemCat (cs.foldl (fun cat3 c2 => addColor cm aid ctn c2 cat3) cat)
        (CKey.hex hx) ⟨ctn, aid, none, none, none⟩ := by
  intro cs
  induction cs with
  | nil =>
    intro cat hc
    cases hc
  | cons c0 rest ih =>
    intro cat hc
    simp only [List.foldl_cons]
    rcases List.mem_cons.mp hc with h1 | h1
    · subst h1
      exact colorsFold_mono cm aid ctn rest _ _ _
        (addColor_adds cm aid ctn c cat hx hh hb hw hcv ha)
    · exact ih _ h1

theorem propsFold_sound (cm : CEnv) (a : Art) :
    ∀ (pns : List String) (cat : Catalog) (k : CKey) (en : CEntry),
      MemCat
          (pns.foldl
            (fun cat2 ctn =>
              (colorsOf (lookupProp a.props ctn)).foldl
                (fun cat3 c => addColor cm a.id ctn c cat3) cat2)
            cat) k en →
      MemCat cat k en ∨
        ∃ ctn ∈ pns, ∃ c ∈ colorsOf (lookupProp a.props ctn),
          en.artist = a.id ∧ (en.cmap = none → Qual a.id ctn c k en) := by
  intro pns
  induction pns with
  | nil =>
    intro cat k en h
    exact Or.inl h
  | cons ctn rest ih =>
    intro cat k en h
    simp only [List.foldl_cons] at h
    rcases ih _ k en h with h2 | ⟨ctn2, hctn2, hc⟩
    · rcases colorsFold_sound cm a.id ctn _ cat k en h2 with h3 | ⟨c, hcmem, hq⟩
      · exact Or.inl h3
      · exact Or.inr ⟨ctn, List.mem_cons_self _ _, c, hcmem, hq⟩
    · exact Or.inr ⟨ctn2, List.mem_cons_of_mem _ hctn2, hc⟩

theorem propsFold_mono (cm : CEnv) (a : Art) :
    ∀ (pns : List String) (cat : Catalog) (k : CKey) (en : CEntry),
      MemCat cat k en →
      MemCat
        (pns.foldl
          (fun cat2 ctn =>
            (colorsOf (lookupProp a.props ctn)).foldl
              (fun cat3 c => addColor cm a.id ctn c cat3) cat2)
          cat) k en := by
  intro pns
  induction pns with
  | nil =>
    intro cat k en h
    exact h
  | cons ctn rest ih =>
    intro cat k en h
    simp only [List.foldl_cons]
    exact ih _ k en (colorsFold_mono cm a.id ctn _ cat k en h)

theorem addArtistColors_sound (cm : CEnv) (a : Art) (cat : Catalog) (k : CKey)
    (en : CEntry) (h : MemCat (addArtistColors cm a cat) k en) :
    MemCat cat k en ∨ EntryOk a k en := by
  unfold addArtistColors at h
  rcases propsFold_sound cm a propNames cat k en h with h2 | ⟨ctn, hctn, c, hc, hart, hq⟩
  · exact Or.inl h2
  · exact Or.inr ⟨hart, fun hnone => ⟨ctn, hctn, c, hc, hq hnone⟩⟩

theorem addArtistColors_mono (cm : CEnv) (a : Art) (cat : Catalog) (k : CKey)
    (en : CEntry) (h : MemCat cat k en) : MemCat (addArtistColors cm a cat) k en := by
  unfold addArtistColors
  exact propsFold_mono cm a propNames cat k en h

theorem propsFold_adds (cm : CEnv) (a : Art) (ctn : String) (c : ColorObj) (hx : String)
    (hc : c ∈ colorsOf (lookupProp a.props ctn)) (hh : toHex c = some hx)
    (hb : hx ≠ "#000000") (hw : hx ≠ "#ffffff") (hcv : c.cmapval = none)
    (ha : alphaOf c ≠ 0) :
    ∀ (pns : List String) (cat : Catalog), ctn ∈ pns →
      MemCat
        (pns.foldl
          (fun cat2 ctn2 =>
            (colorsOf (lookupProp a.props ctn2)).foldl
              (fun cat3 c2 => addColor cm a.id ctn2 c2 cat3) cat2)
          cat)
        (CKey.hex hx) ⟨ctn, a.id, none, none, none⟩ := by
  intro pns
  induction pns with
  | nil =>
    intro cat hctn
    cases hctn
  | cons p rest ih =>
    intro cat hctn
    simp only [List.foldl_cons]
    rcases List.mem_cons.mp hctn with h1 | h1
    · subst h1
      exact propsFold_mono cm a rest _ _ _
        (colorsFold_adds cm a.id ctn c hx hh hb hw hcv ha _ cat hc)
    · exact ih _ h1

theorem addArtistColors_adds (cm : CEnv) (a : Art) (cat : Catalog) (ctn : String)
    (c : ColorObj) (hx : String) (hctn : ctn ∈ propNames)
    (hc : c ∈ colorsOf (lookupProp a.props ctn)) (hh : toHex c = some hx)
    (hb : hx ≠ "#000000") (hw : hx ≠ "#ffffff") (hcv : c.cmapval = none)
    (ha : alphaOf c ≠ 0) :
    MemCat (addArtistColors cm a cat) (CKey.hex hx) ⟨ctn, a.id, none, none, none⟩ := by
  unfold addArtistColors
  exact propsFold_adds cm a ctn c hx hc hh hb hw hcv ha propNames cat hctn

theorem addChildren_node (cm : CEnv) (cat : Catalog) (i : Nat) (kd : ArtKind)
    (ts : String) (ns : Bool) (pr : List (String × ColorVal)) (children : List Art) :
    addChildren cm cat (Art.node i kd ts ns pr children) = addChildrenList cm cat children := by
  simp [addChildren]

theorem addChildrenList_nil (cm : CEnv) (cat : Catalog) : addChildrenList cm cat [] = cat := by
  simp [addChildrenList]

theorem addChildrenList_cons (cm : CEnv) (cat : Catalog) (a : Art) (rest : List Art) :
    addChildrenList cm cat (a :: rest) =
      addChildrenList cm
        (if (a.kind = ArtKind.text ∧ a.textStr = "") ∨ a.noSave then cat
         else
           addArtistColors cm a
             (if a.kind = ArtKind.text ∨ a.kind = ArtKind.xtick ∨ a.kind = ArtKind.ytick then
               cat
              else addChildren cm cat a))
        rest := by
  simp [addChildrenList]

theorem visitedArts_node (i : Nat) (kd : ArtKind) (ts : String) (ns : Bool)
    (pr : List (String × ColorVal)) (children : List Art) :
    visitedArts (Art.node i kd ts ns pr children) = visitedList children := by
  simp [visitedArts]

theorem visitedList_nil : visitedList [] = [] := by
  simp [visitedList]

theorem visitedList_cons (a : Art) (rest : List Art) :
    visitedList (a :: rest) =
      (if (a.kind = ArtKind.text ∧ a.textStr = "") ∨ a.noSave then []
       else
         (if a.kind = ArtKind.text ∨ a.kind = ArtKind.xtick ∨ a.kind = ArtKind.ytick then []
          else visitedArts a) ++ [a])
      ++ visitedList rest := by
  simp [visitedList]

mutual

theorem visitedArts_ok :
    ∀ (a : Art), ∀ b ∈ visitedArts a,
      ¬(b.kind = ArtKind.text ∧ b.textStr = "") ∧ b.noSave = false
  | Art.node i kd ts ns pr children => by
      rw [visitedArts_node]
      exact visitedList_ok children

theorem visitedList_ok :
    ∀ (l : List Art), ∀ b ∈ visitedList l,
      ¬(b.kind = ArtKind.text ∧ b.textStr = "") ∧ b.noSave = false
  | [] => by
      rw [visitedList_nil]
      intro b hb
      exact absurd hb (List.not_mem_nil b)
  | a :: rest => by
      intro b hb
      rw [visitedList_cons] at hb
      rcases List.mem_append.mp hb with h1 | h1
      · by_cases hskip : (a.kind = ArtKind.text ∧ a.textStr = "") ∨ a.noSave
        · rw [if_pos hskip] at h1
          exact absurd h1 (List.not_mem_nil b)
        · rw [if_neg hskip] at h1
          rcases List.mem_append.mp h1 with h2 | h2
          · by_cases htl : a.kind = ArtKind.text ∨ a.kind = ArtKind.xtick ∨ a.kind = ArtKind.ytick
            · rw [if_pos htl] at h2
              exact absurd h2 (List.not_mem_nil b)
            · rw [if_neg htl] at h2
              exact visitedArts_ok a b h2
          · have hba : b = a := by simpa using h2
            subst hba
            have hns : ¬(b.noSave = true) := fun hq => hskip (Or.inr hq)
            exact ⟨fun hpq => hskip (Or.inl hpq), by simpa using hns⟩
      · exact visitedList_ok rest b h1

end

mutual

theorem addChildren_sound (cm : CEnv) :
    ∀ (a : Art) (cat : Catalog) (k : CKey) (en : CEntry),
      MemCat (addChildren cm cat a) k en →
      MemCat cat k en ∨ ∃ b ∈ visitedArts a, EntryOk b k en
  | Art.node i kd ts ns pr children => fun cat k en h => by
      rw [addChildren_node] at h
      rcases addChildrenList_sound cm children cat k en h with h2 | h2
      · exact Or.inl h2
      · right
        rw [visitedArts_node]
        exact h2

theorem addChildrenList_sound (cm : CEnv) :
    ∀ (l : List Art) (cat : Catalog) (k : CKey) (en : CEntry),
      MemCat (addChildrenList cm cat l) k en →
      MemCat cat k en ∨ ∃ b ∈ visitedList l, EntryOk b k en
  | [] => fun cat k en h => by
      rw [addChildrenList_nil] at h
      exact Or.inl h
  | a :: rest => fun cat k en h => by
      rw [addChildrenList_cons] at h
      rcases addChildrenList_sound cm rest _ k en h with h2 | ⟨b, hb, hok⟩
      · by_cases hskip : (a.kind = ArtKind.text ∧ a.textStr = "") ∨ a.noSave
        · rw [if_pos hskip] at h2
          exact Or.inl h2
        · rw [if_neg hskip] at h2
          rcases addArtistColors_sound cm a _ k en h2 with h3 | h3
          · by_cases htl :
                a.kind = ArtKind.text ∨ a.kind = ArtKind.xtick ∨ a.kind = ArtKind.ytick
            · rw [if_pos htl] at h3
              exact Or.inl h3
            · rw [if_neg htl] at h3
              rcases addChildren_sound cm a cat k en h3 with h4 | ⟨b, hb, hok⟩
              · exact Or.inl h4
              · right
                refine ⟨b, ?_, hok⟩
                rw [visitedList_cons, if_neg hskip, if_neg htl]
                simp only [List.mem_append]
                exact Or.inl (Or.inl hb)
          · right
            refine ⟨a, ?_, h3⟩
            rw [visitedList_cons, if_neg hskip]
            simp
      · right
        refine ⟨b, ?_, hok⟩
        rw [visitedList_cons]
        exact List.mem_append.mpr (Or.inr hb)

end

mutual

theorem addChildren_mono (cm : CEnv) :
    ∀ (a : Art) (cat : Catalog) (k : CKey) (en : CEntry),
      MemCat cat k en → MemCat (addChildren cm cat a) k en
  | Art.node i kd ts ns pr children => fun cat k en h => by
      rw [addChildren_node]
      exact addChildrenList_mono cm children cat k en h

theorem addChildrenList_mono (cm : CEnv) :
    ∀ (l : List Art) (cat : Catalog) (k : CKey) (en : CEntry),
      MemCat cat k en → MemCat (addChildrenList cm cat l) k en
  | [] => fun cat k en h => by
      rw [addChildrenList_nil]
      exact h
  | a :: rest => fun cat k en h => by
      rw [addChildrenList_cons]
      apply addChildrenList_mono cm rest
      by_cases hskip : (a.kind = ArtKind.text ∧ a.textStr = "") ∨ a.noSave
      · rw [if_pos hskip]
        exact h
      · rw [if_neg hskip]
        apply addArtistColors_mono
        by_cases htl : a.kind = ArtKind.text ∨ a.kind = ArtKind.xtick ∨ a.kind = ArtKind.ytick
        · rw [if_pos htl]
          exact h
        · rw [if_neg htl]
          exact addChildren_mono cm a cat k en h

end

mutual

theorem addChildren_adds (cm : CEnv) :
    ∀ (a : Art) (cat : Catalog) (b : Art) (ctn : String) (c : ColorObj) (hx : String),
      b ∈ visitedArts a → ctn ∈ propNames → c ∈ colorsOf (lookupProp b.props ctn) →
      toHex c = some hx → hx ≠ "#000000" → hx ≠ "#ffffff" → c.cmapval = none →
      alphaOf c ≠ 0 →
      MemCat (addChildren cm cat a) (CKey.hex hx) ⟨ctn, b.id, none, none, none⟩
  | Art.node i kd ts ns pr children => fun cat b ctn c hx hb hctn hc hh hb0 hw hcv ha => by
      rw [addChildren_node]
      rw [visitedArts_node] at hb
      exact addChildrenList_adds cm children cat b ctn c hx hb hctn hc hh hb0 hw hcv ha

theorem addChildrenList_adds (cm : CEnv) :
    ∀ (l : List Art) (cat : Catalog) (b : Art) (ctn : String) (c : ColorObj) (hx : String),
      b ∈ visitedList l → ctn ∈ propNames → c ∈ colorsOf (lookupProp b.props ctn) →
      toHex c = some hx → hx ≠ "#000000" → hx ≠ "#ffffff" → c.cmapval = none →
      alphaOf c ≠ 0 →
      MemCat (addChildrenList cm cat l) (CKey.hex hx) ⟨ctn, b.id, none, none, none⟩
  | [] => fun cat b ctn c hx hb => by
      rw [visitedList_nil] at hb
      exact absurd hb (List.not_mem_nil b)
  | a :: rest => fun cat b ctn c hx hb hctn hc hh hb0 hw hcv ha => by
      rw [addChildrenList_cons]
      rw [visitedList_cons] at hb
      rcases List.mem_append.mp hb with h1 | h1
      · apply addChildrenList_mono cm rest
        by_cases hskip : (a.kind = ArtKind.text ∧ a.textStr = "") ∨ a.noSave
        · rw [if_pos hskip] at h1
          exact absurd h1 (List.not_mem_nil b)
        · rw [if_neg hskip] at h1
          rw [if_neg hskip]
          rcases List.mem_append.mp h1 with h2 | h2
          · by_cases htl :
                a.kind = ArtKind.text ∨ a.kind = ArtKind.xtick ∨ a.kind = ArtKind.ytick
            · rw [if_pos htl] at h2
              exact absurd h2 (List.not_mem_nil b)
            · rw [if_neg htl] at h2
              rw [if_neg htl]
              apply addArtistColors_mono
              exact addChildren_adds cm a cat b ctn c hx h2 hctn hc hh hb0 hw hcv ha
          · have hba : b = a := by simpa using h2
            subst hba
            exact addArtistColors_adds cm b _ ctn c hx hctn hc hh hb0 hw hcv ha
      · exact addChildrenList_adds cm rest _ b ctn c hx h1 hctn hc hh hb0 hw hcv ha

end

theorem figureListColors_sound (cm : CEnv) (fig : Art) (k : CKey) (en : CEntry)
    (h : MemCat (figureListColors cm fig) k en) :
    ∃ b ∈ visitedArts fig, EntryOk b k en := by
  unfold figureListColors at h
  rcases addChildren_sound cm fig [] k en h with h2 | h2
  · exact absurd h2 (memCat_nil k en)
  · exact h2

theorem figureListColors_adds (cm : CEnv) (fig : Art) (b : Art) (ctn : String)
    (c : ColorObj) (hx : String) (hb : b ∈ visitedArts fig) (hctn : ctn ∈ propNames)
    (hc : c ∈ colorsOf (lookupProp b.props ctn)) (hh : toHex c = some hx)
    (hb0 : hx ≠ "#000000") (hw : hx ≠ "#ffffff") (hcv : c.cmapval = none)
    (ha : alphaOf c ≠ 0) :
    MemCat (figureListColors cm fig) (CKey.hex hx) ⟨ctn, b.id, none, none, none⟩ := by
  unfold figureListColors
  exact addChildren_adds cm fig [] b ctn c hx hb hctn hc hh hb0 hw hcv ha

theorem setProp_same (f : Nat → String → Option PVal) (aid : Nat) (ctn : String)
    (v : PVal) : setProp f aid ctn v aid ctn = some v := by
  simp [setProp]

theorem setProp_other (f : Nat → String → Option PVal) (aid : Nat) (ctn : String)
    (v : PVal) (a : Nat) (c : String) (h : ¬(a = aid ∧ c = ctn)) :
    setProp f aid ctn v a c = f a c := by
  simp [setProp, h]

theorem swapStep_changes (cm : CEnv) (maps : List String) (nc : String) (s : SwapState)
    (en : CEntry) :
    (swapStep cm maps nc s en).changes = s.changes ++ [expectedChange cm maps nc en] := by
  unfold swapStep expectedChange
  cases hc : en.cmap with
  | none =>
    by_cases hm : nc ∈ maps
    · simp [hm]
    · simp [hm]
  | some cid =>
    by_cases hs : (cm cid).colors.isSome
    · by_cases hmem : cid ∈ s.changedCmaps <;> simp [hs, hmem]
    · by_cases hm : nc ∈ maps <;> by_cases hmem : cid ∈ s.changedCmaps <;>
        simp [hs, hm, hmem]

theorem swapStep_props_set (cm : CEnv) (maps : List String) (nc : String) (s : SwapState)
    (en : CEntry) :
    (swapStep cm maps nc s en).props en.artist en.ctn =
      some (expectedVal cm maps nc en) := by
  unfold swapStep expectedVal
  cases hc : en.cmap with
  | none =>
    by_cases hm : nc ∈ maps
    · simp [hm, setProp_same]
    · simp [hm, setProp_same]
  | some cid =>
    by_cases hs : (cm cid).colors.isSome
    · by_cases hmem : cid ∈ s.changedCmaps <;> simp [hs, hmem, setProp_same]
    · by_cases hm : nc ∈ maps <;> by_cases hmem : cid ∈ s.changedCmaps <;>
        simp [hs, hm, hmem, setProp_same]

theorem swapStep_props_other (cm : CEnv) (maps : List String) (nc : String) (s : SwapState)
    (en : CEntry) (a : Nat) (c : String) (h : ¬(a = en.artist ∧ c = en.ctn)) :
    (swapStep cm maps nc s en).props a c = s.props a c := by
  unfold swapStep
  cases hc : en.cmap with
  | none =>
    by_cases hm : nc ∈ maps
    · simp [hm, setProp_other _ _ _ _ _ _ h]
    · simp [hm, setProp_other _ _ _ _ _ _ h]
  | some cid =>
    by_cases hs : (cm cid).colors.isSome
    · by_cases hmem : cid ∈ s.changedCmaps <;> simp [hs, hmem, setProp_other _ _ _ _ _ _ h]
    · by_cases hm : nc ∈ maps <;> by_cases hmem : cid ∈ s.changedCmaps <;>
        simp [hs, hm, hmem, setProp_other _ _ _ _ _ _ h]

theorem swapFold_changes (cm : CEnv) (maps : List String) (nc : String) :
    ∀ (entries : List CEntry) (s : SwapState),
      (List.foldl (swapStep cm maps nc) s entries).changes =
        s.changes ++ entries.map (expectedChange cm maps nc) := by
  intro entries
  induction entries with
  | nil =>
    intro s
    simp
  | cons en rest ih =>
    intro s
    simp only [List.foldl_cons, List.map_cons]
    rw [ih, swapStep_changes]
    simp [List.append_assoc]

theorem swapFold_props_untouched (cm : CEnv) (maps : List String) (nc : String) :
    ∀ (entries : List CEntry) (s : SwapState) (a : Nat) (c : String),
      (∀ x ∈ entries, ¬(a = x.artist ∧ c = x.ctn)) →
      (List.foldl (swapStep cm maps nc) s entries).props a c = s.props a c := by
  intro entries
  induction entries with
  | nil =>
    intro s a c _
    rfl
  | cons e0 rest ih =>
    intro s a c hall
    simp only [List.foldl_cons]
    rw [ih _ a c (fun x hx => hall x (List.mem_cons_of_mem _ hx))]
    exact swapStep_props_other cm maps nc s e0 a c (hall e0 (List.mem_cons_self _ _))

theorem swapFold_props (cm : CEnv) (maps : List String) (nc : String) :
    ∀ (entries : List CEntry) (s : SwapState),
      (entries.map (fun x => (x.artist, x.ctn))).Nodup →
      ∀ en ∈ entries,
        (List.foldl (swapStep cm maps nc) s entries).props en.artist en.ctn =
          some (expectedVal cm maps nc en) := by
  intro entries
  induction entries with
  | nil =>
    intro s _ en hen
    exact absurd hen (List.not_mem_nil en)
  | cons e0 rest ih =>
    intro s hnd en hen
    simp only [List.map_cons, List.nodup_cons] at hnd
    simp only [List.foldl_cons]
    rcases List.mem_cons.mp hen with h1 | h1
    · subst h1
      rw [swapFold_props_untouched cm maps nc rest _ en.artist en.ctn ?_]
      · exact swapStep_props_set cm maps nc s en
      · intro x hx hax
        apply hnd.1
        rw [List.mem_map]
        exact ⟨x, hx, by rw [← hax.1, ← hax.2]⟩
    · exact ih _ hnd.2 en h1

end Colors

/-! Concrete figures exercising the color model. -/

namespace ColorsEx

/-- Colormap 0: a custom colormap (with `get_color`/`set_color`) holding red. -/
def cmEx : Colors.CEnv := fun _ => ⟨"mycmap", some ["#ff0000"]⟩

/-- Colormap 0 holding pure black. -/
def cmBlack : Colors.CEnv := fun _ => ⟨"mycmap", some ["#000000"]⟩

/-- An artist whose color property is a colormap-tied color (colormap 0 at
value 0) with a red rgba. -/
def artEx : Colors.Art :=
  Colors.Art.node 1 Colors.ArtKind.other "" false
    [("color", Colors.ColorVal.single ⟨some (255, 0, 0, 255), some (0, 0)⟩)] []

def treeEx : Colors.Art := Colors.Art.node 0 Colors.ArtKind.other "" false [] [artEx]

def figEx : Colors.SFig := ⟨treeEx, none⟩

def mapsEx : List String := ["viridis"]

/-- The entry the walk catalogs for `artEx`. -/
def swapEntry : Colors.CEntry := ⟨"color", 1, some 0, some 0, some 0⟩

/-- A figure whose only color sits at depth two: figure, artist 1, artist 2. -/
def deepArt : Colors.Art :=
  Colors.Art.node 2 Colors.ArtKind.other "" false
    [("color", Colors.ColorVal.single ⟨some (255, 0, 0, 255), none⟩)] []

def midArt : Colors.Art := Colors.Art.node 1 Colors.ArtKind.other "" false [] [deepArt]

def deepFig : Colors.Art := Colors.Art.node 0 Colors.ArtKind.other "" false [] [midArt]

def deepEntry : Colors.CEntry := ⟨"color", 2, none, none, none⟩

end ColorsEx

end Pylustrator

namespace Pylustrator

/-! ## Claim theorems -/

/-- Claim C10: for every string without a backslash character, calling
`TextWidget.setText(s)` followed by `TextWidget.text()` returns `s`: `setText`
escapes each newline to the two-character sequence backslash-n, and `text`
maps each backslash-n sequence back to a newline. -/
theorem setText_text_roundtrip (w : TextWidgetM.TextWidget) (s : String)
    (h : '\\' ∉ s.data) : (TextWidgetM.text (TextWidgetM.setText w s)) = s := by
  unfold TextWidgetM.setText TextWidgetM.text
  simp only
  rw [TextWidgetM.unescape_escape s.data h]

theorem setText_text_roundtrip_witness :
    '\\' ∉ ("ab\ncd ne" : String).data ∧
      TextWidgetM.text (TextWidgetM.setText ⟨"", ""⟩ "ab\ncd ne") = "ab\ncd ne" := by
  refine ⟨by decide, ?_⟩
  exact setText_text_roundtrip ⟨"", ""⟩ "ab\ncd ne" (by decide)

/-- Claim C9: `FreeNumberInput.value` returns the float parse of the field's
text; when that parse fails it reparses the text with every comma replaced by
a dot, and when both parses fail it returns `None` (modelled as `none`) rather
than raising, so it is total on every input string. -/
theorem value_total_comma_fallback (t : String) :
    (∀ v : ℚ, FreeNumberInputM.pyFloat t = some v → FreeNumberInputM.value t = some v) ∧
      (FreeNumberInputM.pyFloat t = none →
        FreeNumberInputM.value t = FreeNumberInputM.pyFloat (FreeNumberInputM.commaToDot t)) := by
  constructor
  · intro v hv
    unfold FreeNumberInputM.value
    rw [hv]
  · intro hnone
    unfold FreeNumberInputM.value
    rw [hnone]
    cases FreeNumberInputM.pyFloat (FreeNumberInputM.commaToDot t) <;> simp

/-- Claim C6: dropping one `QDragableColor` widget onto another distinct widget
exchanges the two colors and leaves every other widget untouched. -/
theorem dropEvent_swaps (w : Nat → String) (self source : Nat) (h : self ≠ source) :
    QDragableColorM.dropEvent w self source self = w source ∧
      QDragableColorM.dropEvent w self source source = w self ∧
      ∀ k, k ≠ self → k ≠ source → QDragableColorM.dropEvent w self source k = w k := by
  refine ⟨?_, ?_, ?_⟩
  · simp [QDragableColorM.dropEvent]
  · simp [QDragableColorM.dropEvent, Ne.symm h]
  · intro k h1 h2
    simp [QDragableColorM.dropEvent, h1, h2]

theorem dropEvent_swaps_witness :
    (0 : Nat) ≠ 1 ∧
      QDragableColorM.dropEvent (fun i => if i = 0 then "#ff0000" else "#00ff00") 0 1 0 = "#00ff00" ∧
      QDragableColorM.dropEvent (fun i => if i = 0 then "#ff0000" else "#00ff00") 0 1 1 = "#ff0000" := by
  have h := dropEvent_swaps (fun i => if i = 0 then "#ff0000" else "#00ff00") 0 1 (by decide)
  exact ⟨by decide, h.1, h.2.1⟩

/-- Claim C7: `saveColors` writes the color text widget's plain text verbatim
to the chosen file and `loadColors` sets the widget text to the file's
contents, so saving to a file and then loading that file restores the same
widget text. -/
theorem save_load_roundtrip (text path : String) (st : ColorChooserM.SaveState)
    (widget0 : String) (h : path ≠ "") :
    (ColorChooserM.saveColors text path st).files path = some text ∧
      ∃ st2, ColorChooserM.loadColors path (ColorChooserM.saveColors text path st) widget0 =
        some (st2, text) := by
  constructor
  · simp [ColorChooserM.saveColors, h]
  · refine ⟨⟨fun p => if p = path then some text else st.files p, some path⟩, ?_⟩
    simp [ColorChooserM.saveColors, ColorChooserM.loadColors, h]

theorem save_load_roundtrip_witness :
    ("f.txt" : String) ≠ "" ∧
      ∃ st2, ColorChooserM.loadColors "f.txt"
          (ColorChooserM.saveColors "#123456\n#abcdef" "f.txt" ⟨fun _ => none, none⟩) "" =
        some (st2, "#123456\n#abcdef") := by
  have h := save_load_roundtrip "#123456\n#abcdef" "f.txt" ⟨fun _ => none, none⟩ "" (by decide)
  exact ⟨by decide, h.2⟩

/-- Claim C2 as stated is refuted at a concrete input: the linked element `0`
is a `Text` that is the x-axis label of the selected axes `1`; target `1` is
distinct from the element and has a working setter (so no `TypeError`), yet
`setLinkedProperty` returns only `[0]` and leaves target 1's property
untouched, because the loop replaces the target by its x-axis label (the
element itself) and skips it. -/
theorem setLinkedProperty_counterexample :
    Except.map (fun p => (p.2, p.1 1))
        (Link.setLinkedProperty LinkEx.cenv 0 [1] (5 : Int) LinkEx.st0) =
      Except.ok ([0], (0 : Int)) ∧
    (LinkEx.cenv 1).hasSetter = true ∧ (1 : Nat) ≠ 0 ∧ LinkEx.st0 1 = 0 := by
  refine ⟨?_, rfl, by decide, rfl⟩
  rfl

/-- Claim C2 (amended): in non-direct mode `setLinkedProperty` calls
`set_<property>` on the linked element, then on every selection target —
where a target is first replaced by its x- or y-axis label when the linked
element is such a label of the selected axes — that is distinct from the
linked element, skipping targets whose setter call raises `TypeError`
(missing setter), and returns exactly the list of elements whose property was
set, with the linked element first. -/
theorem setLinkedProperty_spec {V : Type} (A : Link.Env) (e : Nat) (targets : List Nat)
    (v : V) (st st2 : Nat → V) (els : List Nat)
    (h : Link.setLinkedProperty A e targets v st = Except.ok (st2, els)) :
    ∃ lo subs,
      Link.labelObject A e targets = Except.ok lo ∧
      Link.mapSubst A lo targets = Except.ok subs ∧
      (A e).hasSetter = true ∧
      els = e :: subs.filter (Link.setKeep A e) ∧
      (∀ i ∈ els, st2 i = v) ∧
      (∀ i, i ∉ els → st2 i = st i) := by
  obtain ⟨lo, subs, h1, h2, h3, h4, h5⟩ :=
    Link.setLinkedProperty_char A e targets v st st2 els h
  refine ⟨lo, subs, h1, h2, h3, h4, ?_, ?_⟩
  · intro i hi
    rw [h5]
    simp [hi]
  · intro i hi
    rw [h5]
    simp [hi]

theorem setLinkedProperty_spec_witness :
    ∃ lo subs,
      Link.labelObject LinkEx.env 0 [1, 2] = Except.ok lo ∧
      Link.mapSubst LinkEx.env lo [1, 2] = Except.ok subs ∧
      (LinkEx.env 0).hasSetter = true ∧
      LinkEx.sRes.2 = 0 :: subs.filter (Link.setKeep LinkEx.env 0) ∧
      (∀ i ∈ LinkEx.sRes.2, LinkEx.sRes.1 i = 7) ∧
      (∀ i, i ∉ LinkEx.sRes.2 → LinkEx.sRes.1 i = LinkEx.st0 i) :=
  setLinkedProperty_spec LinkEx.env 0 [1, 2] (7 : Int) LinkEx.st0
    LinkEx.sRes.1 LinkEx.sRes.2 rfl

/-- Claim C1: for every completed (non-direct) edit, `updateLink` captures the
property's values on all affected elements before applying the widget's value
(`old_value`) and after (`new_value`), and registers with the change tracker
an edit described "Change property" whose undo action restores every affected
element's property to its pre-edit value and whose redo action restores the
post-edit value, each registering the serialized setter-call change for the
touched elements.  The getter/setter parity hypothesis reflects matplotlib
artists, whose `get_`/`set_` accessor pairs coexist. -/
theorem updateLink_undo_redo {V : Type} (A : Link.Env) (e : Nat) (targets : List Nat)
    (v : V) (pn ser : String) (st : Nat → V) (res : Link.UpdateResult V)
    (hgs : ∀ i, (A i).hasGetter = (A i).hasSetter)
    (h : Link.updateLink A e targets v st = Except.ok (some res)) :
    res.desc = "Change property" ∧
    (∀ p ∈ res.undoVals, p.2 = st p.1) ∧
    (∀ p ∈ res.redoVals, p.2 = res.st2 p.1) ∧
    (∀ g : Nat → V, ∃ g2,
      Link.applyVals A pn ser res.undoVals g [] =
        Except.ok (g2, res.undoVals.map (fun p => Link.saveChange A pn ser p.1)) ∧
      ∀ i ∈ res.elements, g2 i = st i) ∧
    (∀ g : Nat → V, ∃ g2,
      Link.applyVals A pn ser res.redoVals g [] =
        Except.ok (g2, res.redoVals.map (fun p => Link.saveChange A pn ser p.1)) ∧
      ∀ i ∈ res.elements, g2 i = res.st2 i) := by
  obtain ⟨old, st2, els, new, hga, hsp, hga2, hres⟩ :=
    Link.updateLink_ok_elim A e targets v st res h
  obtain ⟨lo1, subs1, hlo1, hms1, hget, hold⟩ := Link.getAll_char A e targets st old hga
  obtain ⟨lo2, subs2, hlo2, hms2, hset, hels, hst2⟩ :=
    Link.setLinkedProperty_char A e targets v st st2 els hsp
  obtain ⟨lo3, subs3, hlo3, hms3, hget3, hnew⟩ := Link.getAll_char A e targets st2 new hga2
  have e12 : lo1 = lo2 := Except.ok.inj (hlo1.symm.trans hlo2)
  subst e12
  have e13 : lo1 = lo3 := Except.ok.inj (hlo1.symm.trans hlo3)
  subst e13
  have s12 : subs1 = subs2 := Except.ok.inj (hms1.symm.trans hms2)
  subst s12
  have s13 : subs1 = subs3 := Except.ok.inj (hms1.symm.trans hms3)
  subst s13
  have hkeq : Link.getKeep A e = Link.setKeep A e := Link.keep_congr A e hgs
  have hmapfst_old : old.map Prod.fst = els := by
    rw [hold, hels, ← hkeq, List.map_cons, Link.map_fst_pairs]
  have hmapfst_new : new.map Prod.fst = els := by
    rw [hnew, hels, ← hkeq, List.map_cons, Link.map_fst_pairs]
  have hall_old : ∀ p ∈ old, (A p.1).hasSetter = true ∧ p.2 = st p.1 := by
    intro p hp
    constructor
    · rw [hold] at hp
      rcases List.mem_cons.mp hp with h1 | h2
      · rw [h1]
        rw [← hgs e]
        exact hget
      · obtain ⟨x, hx, hpx⟩ := List.mem_map.mp h2
        rw [← hpx]
        rw [← hgs x]
        exact Link.getKeep_mem_getter A e subs1 x hx
    · rw [hold] at hp
      exact Link.pairs_snd st e _ p hp
  have hall_new : ∀ p ∈ new, (A p.1).hasSetter = true ∧ p.2 = st2 p.1 := by
    intro p hp
    constructor
    · rw [hnew] at hp
      rcases List.mem_cons.mp hp with h1 | h2
      · rw [h1]
        rw [← hgs e]
        exact hget
      · obtain ⟨x, hx, hpx⟩ := List.mem_map.mp h2
        rw [← hpx]
        rw [← hgs x]
        exact Link.getKeep_mem_getter A e subs1 x hx
    · rw [hnew] at hp
      exact Link.pairs_snd st2 e _ p hp
  subst hres
  refine ⟨rfl, ?_, ?_, ?_, ?_⟩
  · intro p hp
    rw [hold] at hp
    exact Link.pairs_snd st e _ p hp
  · intro p hp
    rw [hnew] at hp
    exact Link.pairs_snd st2 e _ p hp
  · intro g
    refine ⟨fun i => if i ∈ old.map Prod.fst then st i else g i, ?_, ?_⟩
    · rw [Link.applyVals_eq A pn ser st old g [] hall_old]
      simp
    · intro i hi
      have himem : i ∈ old.map Prod.fst := by
        rw [hmapfst_old]
        exact hi
      simp [himem]
  · intro g
    refine ⟨fun i => if i ∈ new.map Prod.fst then st2 i else g i, ?_, ?_⟩
    · rw [Link.applyVals_eq A pn ser st2 new g [] hall_new]
      simp
    · intro i hi
      have himem : i ∈ new.map Prod.fst := by
        rw [hmapfst_new]
        exact hi
      simp [himem]

theorem updateLink_undo_redo_witness :
    LinkEx.uRes.desc = "Change property" ∧
    (∀ p ∈ LinkEx.uRes.undoVals, p.2 = LinkEx.st0 p.1) ∧
    (∀ p ∈ LinkEx.uRes.redoVals, p.2 = LinkEx.uRes.st2 p.1) ∧
    (∀ g : Nat → Int, ∃ g2,
      Link.applyVals LinkEx.env "color" "7" LinkEx.uRes.undoVals g [] =
        Except.ok (g2, LinkEx.uRes.undoVals.map
          (fun p => Link.saveChange LinkEx.env "color" "7" p.1)) ∧
      ∀ i ∈ LinkEx.uRes.elements, g2 i = LinkEx.st0 i) ∧
    (∀ g : Nat → Int, ∃ g2,
      Link.applyVals LinkEx.env "color" "7" LinkEx.uRes.redoVals g [] =
        Except.ok (g2, LinkEx.uRes.redoVals.map
          (fun p => Link.saveChange LinkEx.env "color" "7" p.1)) ∧
      ∀ i ∈ LinkEx.uRes.elements, g2 i = LinkEx.uRes.st2 i) :=
  updateLink_undo_redo LinkEx.env 0 [1, 2] (7 : Int) "color" "7" LinkEx.st0 LinkEx.uRes
    (fun _ => rfl) rfl

/-- Claim C5: the binding is a two-way sync: `setTarget` updates the widget's
displayed value to the element's current property value and enables the
widget exactly when the link's condition holds for the element (and shows
it); conversely a successful `updateLink` writes the widget's current value
to the element's property. -/
theorem setTarget_updateLink_sync {V : Type} (A : Link.Env) (cond : Nat → Bool)
    (w : Link.WidgetState V) (e : Nat) (targets : List Nat) (v : V) (st : Nat → V)
    (hget : (A e).hasGetter = true) :
    (Link.setTarget A cond w e st).displayed = some (st e) ∧
    (Link.setTarget A cond w e st).enabled = cond e ∧
    (Link.setTarget A cond w e st).visible = true ∧
    ∀ res : Link.UpdateResult V,
      Link.updateLink A e targets v st = Except.ok (some res) → res.st2 e = v := by
  refine ⟨?_, ?_, ?_, ?_⟩
  · simp [Link.setTarget, hget]
  · simp [Link.setTarget, hget]
  · simp [Link.setTarget, hget]
  · intro res h
    obtain ⟨old, st2, els, new, hga, hsp, hga2, hres⟩ :=
      Link.updateLink_ok_elim A e targets v st res h
    obtain ⟨lo, subs, h1, h2, h3, hels, hst2⟩ :=
      Link.setLinkedProperty_char A e targets v st st2 els hsp
    subst hres
    rw [hst2, hels]
    simp

/-- Claim C4 as stated is refuted at a concrete input: `addChildren` recurses
through the whole artist tree, so for a figure whose only direct child
(artist 1) itself has a child (artist 2) carrying a red color, the catalog
lists artist 2, which is not among the figure's direct children — the walk
descends more than one level. -/
theorem addChildren_depth_counterexample :
    Colors.figureListColors ColorsEx.cmEx ColorsEx.deepFig =
      [(Colors.CKey.hex "#ff0000", [ColorsEx.deepEntry])] ∧
    Colors.Art.childIds ColorsEx.deepFig = [1] ∧
    ColorsEx.deepEntry.artist = 2 ∧ (2 : Nat) ∉ [1] := by
  refine ⟨rfl, rfl, rfl, by decide⟩

/-- Claim C4 (amended): the color catalog is produced by a full recursive tree
walk (not limited to one level): `figureListColors` visits every descendant
artist that survives the guards (skipping empty `Text`s and `_no_save`
artists entirely and not descending into texts or ticks) and maps each used
color, as a hex string, to the entries that use it.  Soundness: every
cataloged entry belongs to a visited artist (and every non-colormap entry to
one of its qualifying plain colors); completeness: every qualifying plain
color of a visited artist is cataloged under its hex string with that
artist's entry. -/
theorem figureListColors_walk_spec (cm : Colors.CEnv) (fig : Colors.Art) :
    (∀ k en, Colors.MemCat (Colors.figureListColors cm fig) k en →
      ∃ b ∈ Colors.visitedArts fig, Colors.EntryOk b k en) ∧
    (∀ b ∈ Colors.visitedArts fig, ∀ ctn ∈ Colors.propNames,
      ∀ c ∈ Colors.colorsOf (Colors.lookupProp b.props ctn), ∀ hx : String,
        Colors.toHex c = some hx → hx ≠ "#000000" → hx ≠ "#ffffff" →
        c.cmapval = none → Colors.alphaOf c ≠ 0 →
        Colors.MemCat (Colors.figureListColors cm fig) (Colors.CKey.hex hx)
          ⟨ctn, b.id, none, none, none⟩) := by
  constructor
  · intro k en h
    exact Colors.figureListColors_sound cm fig k en h
  · intro b hb ctn hctn c hc hx hh hb0 hw hcv ha
    exact Colors.figureListColors_adds cm fig b ctn c hx hb hctn hc hh hb0 hw hcv ha

theorem figureListColors_walk_spec_witness :
    ∃ b ∈ Colors.visitedArts ColorsEx.deepFig,
      Colors.EntryOk b (Colors.CKey.hex "#ff0000") ColorsEx.deepEntry :=
  (figureListColors_walk_spec ColorsEx.cmEx ColorsEx.deepFig).1
    (Colors.CKey.hex "#ff0000") ColorsEx.deepEntry
    ⟨[ColorsEx.deepEntry], rfl, List.mem_singleton.mpr rfl⟩

/-- Claim C8 as stated is refuted at a concrete input: the black/white filter
is applied to the color object itself, not to the colors of its colormap;
with a custom colormap whose `get_color` list holds pure black, the catalog
contains the key "#000000". -/
theorem catalog_black_counterexample :
    Colors.figureListColors ColorsEx.cmBlack ColorsEx.treeEx =
      [(Colors.CKey.hex "#000000", [ColorsEx.swapEntry])] := by
  rfl

/-- Claim C8 (amended): in every catalog built by
`figureListColors`/`addChildren`, entries belong only to visited artists —
never to an empty `Text` or a `_no_save` artist — and every entry not derived
from a colormap sits under a hex key that is neither pure black nor pure
white and comes from a non-transparent (alpha nonzero) plain color of its
artist.  Keys derived from a colormap's color list are exempt from these
filters. -/
theorem catalog_invariant (cm : Colors.CEnv) (fig : Colors.Art) (k : Colors.CKey)
    (en : Colors.CEntry) (h : Colors.MemCat (Colors.figureListColors cm fig) k en) :
    (∃ b ∈ Colors.visitedArts fig, en.artist = b.id ∧
      ¬(b.kind = Colors.ArtKind.text ∧ b.textStr = "") ∧ b.noSave = false) ∧
    (en.cmap = none →
      ∃ hx, k = Colors.CKey.hex hx ∧ hx ≠ "#000000" ∧ hx ≠ "#ffffff" ∧
        ∃ b ∈ Colors.visitedArts fig, ∃ ctn ∈ Colors.propNames,
          ∃ c ∈ Colors.colorsOf (Colors.lookupProp b.props ctn),
            Colors.toHex c = some hx ∧ c.cmapval = none ∧ Colors.alphaOf c ≠ 0) := by
  obtain ⟨b, hb, hart, himp⟩ := Colors.figureListColors_sound cm fig k en h
  have hbok := Colors.visitedArts_ok fig b hb
  constructor
  · exact ⟨b, hb, hart, hbok⟩
  · intro hnone
    obtain ⟨ctn, hctn, c, hc, hq⟩ := himp hnone
    obtain ⟨hx, hh, hb0, hw, hcv, ha, hk, _⟩ := hq
    exact ⟨hx, hk, hb0, hw, b, hb, ctn, hctn, c, hc, hh, hcv, ha⟩

theorem catalog_invariant_witness :
    (∃ b ∈ Colors.visitedArts ColorsEx.deepFig, ColorsEx.deepEntry.artist = b.id ∧
      ¬(b.kind = Colors.ArtKind.text ∧ b.textStr = "") ∧ b.noSave = false) ∧
    (ColorsEx.deepEntry.cmap = none →
      ∃ hx, Colors.CKey.hex "#ff0000" = Colors.CKey.hex hx ∧ hx ≠ "#000000" ∧
        hx ≠ "#ffffff" ∧
        ∃ b ∈ Colors.visitedArts ColorsEx.deepFig, ∃ ctn ∈ Colors.propNames,
          ∃ c ∈ Colors.colorsOf (Colors.lookupProp b.props ctn),
            Colors.toHex c = some hx ∧ c.cmapval = none ∧ Colors.alphaOf c ≠ 0) :=
  catalog_invariant ColorsEx.cmEx ColorsEx.deepFig (Colors.CKey.hex "#ff0000")
    ColorsEx.deepEntry ⟨[ColorsEx.deepEntry], rfl, List.mem_singleton.mpr rfl⟩

/-- Claim C3 as stated is refuted at a concrete input: for a cataloged entry
carrying a custom (`set_color`-style) colormap, the artist's property is set
to that colormap evaluated at the entry's value — not to `new_color`, which
here names no colormap.  The catalog is computed by `figureListColors` from
the figure (its `color_artists` attribute is absent). -/
theorem figureSwapColor_counterexample :
    Option.map (fun s => s.props 1 "color")
        (Colors.figureSwapColor ColorsEx.cmEx ColorsEx.mapsEx ColorsEx.figEx
          (fun _ _ => none) "#00ff00" "#ff0000") =
      some (some (Colors.PVal.customC 0 0)) ∧
    Colors.PVal.customC 0 0 ≠ Colors.PVal.hexs "#00ff00" ∧
    "#00ff00" ∉ ColorsEx.mapsEx := by
  refine ⟨rfl, by decide, by decide⟩

/-- Claim C3 (amended): for every color key present in the figure's color
catalog (computed first by `figureListColors` when absent), `figureSwapColor`
visits every cataloged entry and registers exactly one serialized setter-call
change per entry; each listed artist's property is set to: the entry's custom
colormap evaluated at the entry's value (when the entry carries a colormap
with `set_color`, which is also updated at the entry's index), otherwise
`plt.get_cmap(new_color)` at the entry's value (when `new_color` names a
known colormap), otherwise `new_color` itself — and analogously
`plt.get_cmap(new_color)(0)` or `new_color` for plain entries. -/
theorem figureSwapColor_spec (cm : Colors.CEnv) (maps : List String)
    (fig : Colors.SFig) (init : Nat → String → Option Colors.PVal) (nc cb : String)
    (entries : List Colors.CEntry)
    (hfind : Colors.catFind (Colors.usedCatalog cm fig) (Colors.CKey.hex cb) =
      some entries) :
    ∃ s, Colors.figureSwapColor cm maps fig init nc cb = some s ∧
      s.changes = entries.map (Colors.expectedChange cm maps nc) ∧
      ((entries.map (fun x => (x.artist, x.ctn))).Nodup →
        ∀ en ∈ entries,
          s.props en.artist en.ctn = some (Colors.expectedVal cm maps nc en)) ∧
      (fig.colorArtists = none →
        Colors.usedCatalog cm fig = Colors.figureListColors cm fig.tree) := by
  refine ⟨List.foldl (Colors.swapStep cm maps nc) ⟨init, [], [], []⟩ entries,
    ?_, ?_, ?_, ?_⟩
  · unfold Colors.figureSwapColor
    rw [hfind]
  · rw [Colors.swapFold_changes]
    simp
  · intro hnd en hen
    exact Colors.swapFold_props cm maps nc entries _ hnd en hen
  · intro hnone
    unfold Colors.usedCatalog
    rw [hnone]

theorem figureSwapColor_spec_witness :
    ∃ s, Colors.figureSwapColor ColorsEx.cmEx ColorsEx.mapsEx ColorsEx.figEx
        (fun _ _ => none) "#00ff00" "#ff0000" = some s ∧
      s.changes = [ColorsEx.swapEntry].map
        (Colors.expectedChange ColorsEx.cmEx ColorsEx.mapsEx "#00ff00") ∧
      (([ColorsEx.swapEntry].map (fun x => (x.artist, x.ctn))).Nodup →
        ∀ en ∈ [ColorsEx.swapEntry],
          s.props en.artist en.ctn =
            some (Colors.expectedVal ColorsEx.cmEx ColorsEx.mapsEx "#00ff00" en)) ∧
      (ColorsEx.figEx.colorArtists = none →
        Colors.usedCatalog ColorsEx.cmEx ColorsEx.figEx =
          Colors.figureListColors ColorsEx.cmEx ColorsEx.figEx.tree) :=
  figureSwapColor_spec ColorsEx.cmEx ColorsEx.mapsEx ColorsEx.figEx (fun _ _ => none)
    "#00ff00" "#ff0000" [ColorsEx.swapEntry] rfl

theorem setTarget_updateLink_sync_witness :
    (Link.setTarget LinkEx.env (fun _ => true) ⟨none, none, false, false⟩ 0
        LinkEx.st0).displayed = some (LinkEx.st0 0) ∧
    (Link.setTarget LinkEx.env (fun _ => true) ⟨none, none, false, false⟩ 0
        LinkEx.st0).enabled = true ∧
    (Link.setTarget LinkEx.env (fun _ => true) ⟨none, none, false, false⟩ 0
        LinkEx.st0).visible = true ∧
    ∀ res : Link.UpdateResult Int,
      Link.updateLink LinkEx.env 0 [1, 2] (7 : Int) LinkEx.st0 = Except.ok (some res) →
        res.st2 0 = 7 :=
  setTarget_updateLink_sync LinkEx.env (fun _ => true) ⟨none, none, false, false⟩ 0 [1, 2]
    (7 : Int) LinkEx.st0 rfl

end Pylustrator
